import Mathlib

/-!
Verification of the chunked file reader (`unixfs/io/dagreader.go`) and the
mutable directory overlay (`ipnsfs/dir.go`) of tonistiigi/go-ipfs.

The Go code is shallowly embedded: DAG nodes become an inductive type whose
links embed the target node (content addressing makes a link interchangeable
with the node it names, and the `DAGService.Get`/`GetDAG` fetches of the
source always return the node a link points to, so fetching is modelled as
projection).  Bytes are modelled as natural numbers, machine integers as
`Int`/`Nat`, fallible operations return `Except`.  Go code mutating a
structure in place becomes explicit state passing: every operation returns
its final state, also on the error paths, mirroring the in-place map and
pointer updates of the source.
-/

set_option autoImplicit false

namespace GoIpfs

/-- The UnixFS payload kinds of `unixfs/pb`: `Data_Raw`, `Data_Directory`,
`Data_File`, `Data_Metadata`, plus `other` for any unrecognized tag
(the `default` branches of the source switches). -/
inductive UfsType where
  | raw
  | directory
  | file
  | metadata
  | other
deriving DecidableEq, Repr

/-- The decoded protobuf payload of a DAG node (`ftpb.Data`): the type tag,
the inline data bytes (`pb.Data`), the total file size (`pb.Filesize`,
a uint64, modelled as `Nat`) and the per-chunk sizes (`pb.Blocksizes`). -/
structure PBData where
  typ : UfsType
  contents : List Nat
  filesize : Nat
  blocksizes : List Nat
deriving DecidableEq, Repr

/-- The result of `proto.Unmarshal` / `ft.FromBytes` on a node's `Data`
field: either a well-formed payload or a payload that fails to parse. -/
inductive NodeData where
  | malformed
  | ok (pb : PBData)
deriving DecidableEq, Repr

/-- A Merkle-DAG node (`merkledag.Node`): a data payload plus an ordered
list of named links.  A link embeds the node it points to (content
addressing: the hash determines the node, and `GetNode`/`Get` return it). -/
inductive DagNode where
  | mk (d : NodeData) (links : List (String × DagNode))

/-- The payload of a DAG node. -/
def DagNode.nodeData : DagNode → NodeData
  | .mk d _ => d

/-- The ordered named links of a DAG node. -/
def DagNode.links : DagNode → List (String × DagNode)
  | .mk _ l => l

/-- Replace the link list of a node (the source mutates `n.Links` in
place; the model builds the updated node). -/
def DagNode.setLinks : DagNode → List (String × DagNode) → DagNode
  | .mk d _, l => .mk d l

@[simp] theorem DagNode.nodeData_mk (d : NodeData) (l : List (String × DagNode)) :
    (DagNode.mk d l).nodeData = d := rfl

@[simp] theorem DagNode.links_mk (d : NodeData) (l : List (String × DagNode)) :
    (DagNode.mk d l).links = l := rfl

@[simp] theorem DagNode.setLinks_links (n : DagNode) (l : List (String × DagNode)) :
    (n.setLinks l).links = l := by cases n <;> rfl

@[simp] theorem DagNode.setLinks_nodeData (n : DagNode) (l : List (String × DagNode)) :
    (n.setLinks l).nodeData = n.nodeData := by cases n <;> rfl

/-- Weight of a node: counts the nodes of the DAG below (and including)
it.  Used as termination measure for the recursive reader functions. -/
def nodeWeight : DagNode → Nat
  | .mk _ links => 1 + linksWeight links
where
  /-- Combined weight of a link list. -/
  linksWeight : List (String × DagNode) → Nat
  | [] => 0
  | (_, c) :: rest => nodeWeight c + linksWeight rest

/-- Combined weight of a plain node list (the reader's promise list). -/
def nodesWeight : List DagNode → Nat
  | [] => 0
  | c :: rest => nodeWeight c + nodesWeight rest

theorem nodeWeight_pos (n : DagNode) : 0 < nodeWeight n := by
  cases n with
  | mk d links => simp [nodeWeight]

theorem nodeWeight_le_linksWeight_of_mem {c : String × DagNode}
    {links : List (String × DagNode)} (h : c ∈ links) :
    nodeWeight c.2 ≤ nodeWeight.linksWeight links := by
  induction links with
  | nil => cases h
  | cons hd tl ih =>
    rcases List.mem_cons.mp h with h' | h'
    · subst h'; simp [nodeWeight.linksWeight]
    · have := ih h'
      cases hd with
      | mk name node => simp [nodeWeight.linksWeight]; omega

theorem nodesWeight_map_snd (links : List (String × DagNode)) :
    nodesWeight (links.map Prod.snd) = nodeWeight.linksWeight links := by
  induction links with
  | nil => rfl
  | cons hd tl ih => cases hd; simp [nodesWeight, nodeWeight.linksWeight, ih]

theorem nodeWeight_le_nodesWeight_of_mem {c : DagNode} {l : List DagNode}
    (h : c ∈ l) : nodeWeight c ≤ nodesWeight l := by
  induction l with
  | nil => cases h
  | cons hd tl ih =>
    rcases List.mem_cons.mp h with h' | h'
    · subst h'; simp [nodesWeight]
    · have := ih h'; simp [nodesWeight]; omega

theorem nodesWeight_links_lt (n : DagNode) :
    nodesWeight (n.links.map Prod.snd) < nodeWeight n := by
  cases n with
  | mk d links => simp [nodeWeight, nodesWeight_map_snd]

theorem nodeWeight_getElem_le (l : List DagNode) (i : Nat) (h : i < l.length) :
    nodeWeight l[i] ≤ nodesWeight l :=
  nodeWeight_le_nodesWeight_of_mem (List.getElem_mem h)

/-! ## The chunked file reader (`unixfs/io/dagreader.go`) -/

/-- Errors of the reader (`dagreader.go`).  Each constructor corresponds to
one error value returned by the source: `ErrIsDir`, `io.EOF`,
`ft.ErrUnrecognizedType`, `ft.ErrInvalidDirLocation`, the ad-hoc
`errors.New` messages, the `proto.Unmarshal` failure, and the
`bytes.Reader.Seek` negative-position error. -/
inductive RErr where
  | isDir                 -- ErrIsDir ("this dag node is a directory")
  | eof                   -- io.EOF
  | unrecognizedType      -- ft.ErrUnrecognizedType
  | invalidDirLocation    -- ft.ErrInvalidDirLocation
  | badMetadataNode       -- "incorrectly formatted metadata object"
  | metadataInFile        -- "Shouldnt have had metadata object inside file"
  | unmarshalFailed       -- proto.Unmarshal error on a malformed payload
  | invalidOffset         -- "Invalid offset"
  | failedSeek            -- "failed to seek properly"
  | negativeCursorSeek    -- bytes.Reader.Seek: negative position
  | invalidWhence         -- "invalid whence"
deriving DecidableEq, Repr

mutual
/-- The current data buffer of a reader (`dr.buf`, a `ReadSeekCloser`):
either a `bytes.Reader` over inline bytes (`readSeekNopCloser`; `pos` is
the read position within `bs`) or a nested child `DagReader`. -/
inductive DRBuf where
  | cursor (bs : List Nat) (pos : Nat)
  | sub (dr : DagReader)

/-- The state of a `DagReader`: the decoded payload of the node being read
(`dr.pbdata`), the promise list (`dr.promises`, one child node per link of
the node, in link order — `GetDAG` resolves each promise to the linked
node), the current buffer (`dr.buf`), the index of the next child link
(`dr.linkPosition`) and the absolute read offset (`dr.offset`).
The `serv`, `ctx` and `cancel` fields of the source carry no
byte-level state and are omitted. -/
inductive DagReader where
  | mk (pbd : PBData) (promises : List DagNode) (buf : DRBuf)
      (linkPos : Nat) (offset : Int)
end

namespace DagReader

/-- Decoded payload of the node under the read head. -/
def pbd : DagReader → PBData
  | .mk pb _ _ _ _ => pb

/-- The promise list: the child nodes, in link order. -/
def promises : DagReader → List DagNode
  | .mk _ p _ _ _ => p

/-- The current buffer. -/
def buf : DagReader → DRBuf
  | .mk _ _ b _ _ => b

/-- Index into `promises` of the next child link to realize. -/
def linkPos : DagReader → Nat
  | .mk _ _ _ lp _ => lp

/-- Absolute byte offset of the read head. -/
def offset : DagReader → Int
  | .mk _ _ _ _ o => o

@[simp] theorem pbd_mk (pb : PBData) (p : List DagNode) (b : DRBuf) (lp : Nat) (o : Int) :
    (DagReader.mk pb p b lp o).pbd = pb := rfl
@[simp] theorem promises_mk (pb : PBData) (p : List DagNode) (b : DRBuf) (lp : Nat) (o : Int) :
    (DagReader.mk pb p b lp o).promises = p := rfl
@[simp] theorem buf_mk (pb : PBData) (p : List DagNode) (b : DRBuf) (lp : Nat) (o : Int) :
    (DagReader.mk pb p b lp o).buf = b := rfl
@[simp] theorem linkPos_mk (pb : PBData) (p : List DagNode) (b : DRBuf) (lp : Nat) (o : Int) :
    (DagReader.mk pb p b lp o).linkPos = lp := rfl
@[simp] theorem offset_mk (pb : PBData) (p : List DagNode) (b : DRBuf) (lp : Nat) (o : Int) :
    (DagReader.mk pb p b lp o).offset = o := rfl

end DagReader

/-- `newDataFileReader(ctx, n, pb, serv)`: a fresh reader over node `n`
with decoded payload `pb`: buffer = `NewRSNCFromBytes(pb.GetData())`
(a byte cursor over the inline bytes, at position 0), promises =
`serv.GetDAG(fctx, n)` (one per link, in link order), `linkPosition = 0`,
`offset = 0`. -/
def newDataFileReader (n : DagNode) (pb : PBData) : DagReader :=
  .mk pb (n.links.map Prod.snd) (.cursor pb.contents 0) 0 0

/-- Weight of a reader state / buffer, the termination measure for the
recursive reader operations. -/
def drWeight : DagReader → Nat
  | .mk _ promises b _ _ => 1 + nodesWeight promises + bufWeight b
where
  /-- Weight of a buffer: a byte cursor weighs nothing, a nested reader
  weighs its own reader weight. -/
  bufWeight : DRBuf → Nat
  | .cursor _ _ => 0
  | .sub dr => 1 + drWeight dr

theorem drWeight_newDataFileReader_le (n : DagNode) (pb : PBData) :
    drWeight (newDataFileReader n pb) ≤ nodeWeight n := by
  cases n with
  | mk d links =>
    simp [newDataFileReader, drWeight, drWeight.bufWeight, nodeWeight,
      nodesWeight_map_snd]

/-- `NewDagReader(ctx, n, serv)`: decode `n.Data`; a `Directory` is
refused with `ErrIsDir`; `Raw` and `File` build a data-file reader;
`Metadata` requires a non-empty link list (`len(n.Links) == 0` is the
failure test of the source) and recurses on the node of the first link;
an unknown tag fails with `ErrUnrecognizedType`. -/
def NewDagReader (n : DagNode) : Except RErr DagReader :=
  match n.nodeData with
  | .malformed => .error .unmarshalFailed
  | .ok pb =>
    match pb.typ with
    | .directory => .error .isDir
    | .raw => .ok (newDataFileReader n pb)
    | .file => .ok (newDataFileReader n pb)
    | .metadata =>
      match h : n.links with
      | [] => .error .badMetadataNode
      | c :: _ => NewDagReader c.2
    | .other => .error .unrecognizedType
termination_by nodeWeight n
decreasing_by
  have hm : c ∈ n.links := by rw [h]; exact List.mem_cons_self _ _
  have h1 : nodeWeight c.2 ≤ nodeWeight.linksWeight n.links :=
    nodeWeight_le_linksWeight_of_mem hm
  cases n with
  | mk d links => simp [nodeWeight] at h1 ⊢; omega

/-!
### Read-until-end-of-stream semantics

`DagReader.Read` fills the caller's slice from `dr.buf`; whenever the
buffer is exhausted (returns `io.EOF`) it calls `precalcNextBuf`, which
realizes the promise at `linkPosition` (incrementing it), decodes it and
installs the next buffer: a byte cursor for a `Raw` child, a freshly
opened nested reader (`newDataFileReader`) for a `File` child; a
`Directory`, `Metadata`, undecodable or unrecognized child is an error;
`linkPosition == len(promises)` is `io.EOF`.  A client that keeps calling
`Read` until an error therefore receives, in order: the bytes remaining
in the current buffer, then the bytes of each remaining chunk.  `drain`
below computes that byte sequence together with a flag telling whether
the stream ended in a clean `io.EOF` (`true`) or in one of the
`precalcNextBuf` errors (`false`).
-/

/-- Bytes delivered by the chunks `cs` (the promises not yet realized),
each processed exactly as `precalcNextBuf` does, paired with `true` for a
clean end-of-stream and `false` if a chunk is a directory
(`ErrInvalidDirLocation`), metadata, undecodable or of unknown type. -/
def drainChunks : List DagNode → List Nat × Bool
  | [] => ([], true)
  | c :: cs =>
    match c.nodeData with
    | .malformed => ([], false)
    | .ok pb =>
      match pb.typ with
      | .directory => ([], false)
      | .metadata => ([], false)
      | .other => ([], false)
      | .raw =>
        -- precalcNextBuf: dr.buf = NewRSNCFromBytes(pb.GetData())
        let (r, ok) := drainChunks cs
        (pb.contents ++ r, ok)
      | .file =>
        -- precalcNextBuf: dr.buf = newDataFileReader(...); draining that
        -- fresh nested reader yields its inline bytes then its own chunks.
        let (b, bok) := drainChunks c.links.unzip.2
        if bok then
          let (r, rok) := drainChunks cs
          (pb.contents ++ b ++ r, rok)
        else (pb.contents ++ b, false)
termination_by cs => nodesWeight cs
decreasing_by
  all_goals simp [nodesWeight, List.unzip_eq_map]
  all_goals first
    | (have hpos := nodeWeight_pos c; omega)
    | (have h1 := nodesWeight_links_lt c
       have := nodeWeight_pos c
       omega)

mutual
/-- Bytes remaining in a buffer when it is read to exhaustion, with the
clean-end flag: a byte cursor yields its bytes from the read position on
and always ends cleanly; a nested reader yields its drain. -/
def drainBuf : DRBuf → List Nat × Bool
  | .cursor bs pos => (bs.drop pos, true)
  | .sub dr => drain dr

/-- Total byte sequence returned by repeated `Read` calls on a reader in
state `dr` until the stream ends, with the clean-end flag (see above). -/
def drain : DagReader → List Nat × Bool
  | .mk _ promises b lp _ =>
    let (bs, bok) := drainBuf b
    if bok then
      let (r, rok) := drainChunks (promises.drop lp)
      (bs ++ r, rok)
    else (bs, false)
end

/-!
### Well-formed file DAGs

Claim C1 quantifies over well-formed file nodes: the node decodes to a
`Raw` or `File` payload, carries one blocksize per link, its `filesize`
equals the inline length plus the sum of the blocksizes, and every chunk
carries its declared bytes — a `Raw` chunk has exactly `blocksize` inline
bytes, a `File` chunk is itself well-formed with `filesize = blocksize`.
-/

mutual
/-- Well-formedness of a file DAG node (see section comment). -/
def wfFile (n : DagNode) : Bool :=
  match n.nodeData with
  | .malformed => false
  | .ok pb =>
    (pb.typ = .raw || pb.typ = .file) &&
    n.links.length = pb.blocksizes.length &&
    pb.filesize = pb.contents.length + pb.blocksizes.sum &&
    wfChunks n.links.unzip.2 pb.blocksizes
termination_by 2 * nodeWeight n
decreasing_by
  have := nodesWeight_links_lt n
  simp [List.unzip_eq_map]
  omega

/-- Every chunk carries its declared bytes (parallel lists of chunk nodes
and blocksizes; `false` on length mismatch). -/
def wfChunks : List DagNode → List Nat → Bool
  | [], [] => true
  | c :: cs, s :: ss =>
    (match c.nodeData with
     | .malformed => false
     | .ok pb =>
       match pb.typ with
       | .raw => pb.contents.length = s
       | .file => wfFile c && pb.filesize = s
       | _ => false) &&
    wfChunks cs ss
  | _, _ => false
termination_by cs _ => 2 * nodesWeight cs + 1
decreasing_by
  all_goals simp [nodesWeight]
  all_goals have := nodeWeight_pos c
  all_goals omega
end

/-- Decoded `Filesize` field of a node (0 when the payload is
malformed; a well-formed node always decodes). -/
def nodeFilesize (n : DagNode) : Nat :=
  match n.nodeData with
  | .ok pb => pb.filesize
  | .malformed => 0

theorem drainChunks_of_wfChunks (cs : List DagNode) (ss : List Nat)
    (h : wfChunks cs ss = true) :
    (drainChunks cs).2 = true ∧ (drainChunks cs).1.length = ss.sum := by
  match cs, ss with
  | [], [] => simp [drainChunks]
  | [], _ :: _ => simp [wfChunks] at h
  | _ :: _, [] => simp [wfChunks] at h
  | c :: cs, s :: ss =>
    rw [wfChunks] at h
    rw [Bool.and_eq_true] at h
    obtain ⟨h1, h2⟩ := h
    have ih := drainChunks_of_wfChunks cs ss h2
    rcases hdc : drainChunks cs with ⟨r, rok⟩
    rw [hdc] at ih
    cases hd : c.nodeData with
    | malformed => rw [hd] at h1; simp at h1
    | ok pb =>
      rw [hd] at h1
      simp only [] at h1
      cases htyp : pb.typ with
      | raw =>
        rw [htyp] at h1
        simp only [decide_eq_true_eq] at h1
        simp at ih
        obtain ⟨ihok, ihlen⟩ := ih
        rw [show drainChunks (c :: cs) = (pb.contents ++ r, rok) from by
          simp [drainChunks, hd, htyp, hdc]]
        simp [ihok, ihlen, h1, List.sum_cons]
      | file =>
        rw [htyp] at h1
        simp only [Bool.and_eq_true, decide_eq_true_eq] at h1
        obtain ⟨hwf, hs⟩ := h1
        rw [wfFile, hd] at hwf
        simp only [Bool.and_eq_true, decide_eq_true_eq] at hwf
        obtain ⟨⟨⟨_, _⟩, hsize⟩, hchunks⟩ := hwf
        rw [List.unzip_eq_map] at hchunks
        have ih2 := drainChunks_of_wfChunks (c.links.map Prod.snd) pb.blocksizes hchunks
        rcases hdb : drainChunks (c.links.map Prod.snd) with ⟨b, bok⟩
        rw [hdb] at ih2
        simp at ih2 ih
        obtain ⟨ih2ok, ih2len⟩ := ih2
        obtain ⟨ihok, ihlen⟩ := ih
        rw [show drainChunks (c :: cs) = (pb.contents ++ (b ++ r), rok) from by
          simp [drainChunks, hd, htyp, hdc, hdb, ih2ok, List.unzip_eq_map]]
        simp [ihok, ihlen, ih2len, List.sum_cons]
        omega
      | directory => rw [htyp] at h1; simp at h1
      | metadata => rw [htyp] at h1; simp at h1
      | other => rw [htyp] at h1; simp at h1
termination_by 2 * nodesWeight cs + 1
decreasing_by
  all_goals simp [nodesWeight, List.unzip_eq_map]
  all_goals first
    | (have hpos := nodeWeight_pos c; omega)
    | (have h1 := nodesWeight_links_lt c
       have h2 := nodeWeight_pos c
       omega)

/-- C1.  A reader opened (`NewDagReader`) on a well-formed file DAG node
`n`, read repeatedly until end-of-stream, delivers exactly
`n.filesize` bytes, ending in a clean `io.EOF`. -/
theorem dagReader_reads_filesize (n : DagNode) (h : wfFile n = true) :
    ∃ dr, NewDagReader n = .ok dr ∧
      (drain dr).2 = true ∧ (drain dr).1.length = nodeFilesize n := by
  rw [wfFile] at h
  cases hd : n.nodeData with
  | malformed => rw [hd] at h; simp at h
  | ok pb =>
    rw [hd] at h
    simp only [Bool.and_eq_true] at h
    obtain ⟨⟨⟨htyp, hlen⟩, hsize⟩, hchunks⟩ := h
    have hdrain := drainChunks_of_wfChunks n.links.unzip.2 pb.blocksizes hchunks
    rcases hdb : drainChunks n.links.unzip.2 with ⟨b, bok⟩
    rw [hdb] at hdrain
    simp at hdrain hsize
    have hrun : drain (newDataFileReader n pb) =
        (pb.contents ++ b, true) := by
      simp [drain, newDataFileReader, drainBuf, List.unzip_eq_map] at hdb ⊢
      simp [hdb, hdrain.1]
    have hgoal : (drain (newDataFileReader n pb)).2 = true ∧
        (drain (newDataFileReader n pb)).1.length = nodeFilesize n := by
      rw [hrun]
      simp [nodeFilesize, hd, hsize, hdrain.2]
    rcases Bool.or_eq_true _ _ |>.mp htyp with hr | hf
    · exact ⟨newDataFileReader n pb,
        by simp [NewDagReader, hd, decide_eq_true_eq.mp hr], hgoal⟩
    · exact ⟨newDataFileReader n pb,
        by simp [NewDagReader, hd, decide_eq_true_eq.mp hf], hgoal⟩

/-- Concrete well-formed file node: inline bytes `[10, 20]`, two raw
chunks `[1, 2]` and `[9]`, blocksizes `[2, 1]`, filesize `5`. -/
def exC1 : DagNode :=
  .mk (.ok ⟨.file, [10, 20], 5, [2, 1]⟩)
    [("a", .mk (.ok ⟨.raw, [1, 2], 2, []⟩) []),
     ("b", .mk (.ok ⟨.raw, [9], 1, []⟩) [])]

/-- Witness for C1 at the concrete node `exC1`. -/
theorem dagReader_reads_filesize_witness :
    wfFile exC1 = true ∧
      ∃ dr, NewDagReader exC1 = .ok dr ∧
        (drain dr).2 = true ∧ (drain dr).1.length = nodeFilesize exC1 :=
  ⟨by simp [exC1, wfFile, wfChunks],
   dagReader_reads_filesize exC1 (by simp [exC1, wfFile, wfChunks])⟩

/-!
### Seek (`DagReader.Seek`)
-/

/-- The three `whence` values of unix seek accepted by the source
(`os.SEEK_SET`, `os.SEEK_CUR`, `os.SEEK_END`; any other value is
rejected with "invalid whence" and is not needed by the claims). -/
inductive Whence where
  | set
  | cur
  | fromEnd
deriving DecidableEq, Repr

/-- The chunk-walking loop of `Seek` (`for i := 0; i < len(pb.Blocksizes)
...`): starting at index `i` with `left` bytes still to skip, return the
index at which the loop `break`s (`Blocksizes[i] > left`, strict) and the
remaining `left`; `none` when the loop runs off the end (in which case
the source leaves `dr.linkPosition` untouched). -/
def seekWalk : List Nat → Nat → Int → Option Nat × Int
  | [], _, left => (none, left)
  | s :: rest, i, left =>
    if (s : Int) > left then (some i, left)
    else seekWalk rest (i + 1) (left - s)

/-- `precalcNextBuf`: realize the promise at `linkPosition` (failing with
`io.EOF` past the end), increment `linkPosition`, decode the child and
install the next buffer — a byte cursor for `Raw`, a fresh nested reader
for `File`; `Directory`, `Metadata` and unknown kinds are errors.  The
updated reader is returned alongside the verdict (the source mutates
`dr` in place). -/
def precalcNextBuf : DagReader → Except RErr Unit × DagReader
  | .mk pb promises b lp o =>
    if h : lp < promises.length then
      let nxt := promises.get ⟨lp, h⟩
      match nxt.nodeData with
      | .malformed => (.error .unmarshalFailed, .mk pb promises b (lp + 1) o)
      | .ok cpb =>
        match cpb.typ with
        | .directory => (.error .invalidDirLocation, .mk pb promises b (lp + 1) o)
        | .metadata => (.error .metadataInFile, .mk pb promises b (lp + 1) o)
        | .other => (.error .unrecognizedType, .mk pb promises b (lp + 1) o)
        | .raw => (.ok (), .mk pb promises (.cursor cpb.contents 0) (lp + 1) o)
        | .file =>
          (.ok (), .mk pb promises (.sub (newDataFileReader nxt cpb)) (lp + 1) o)
    else (.error .eof, .mk pb promises b lp o)

/-- `DagReader.Seek(offset, whence)`.  `SEEK_SET`: negative offsets are
rejected ("Invalid offset"); an offset within the inline bytes resets the
buffer to a cursor over `pb.Data[offset:]` with `linkPosition = 0`;
otherwise the residual is walked through `Blocksizes` (`seekWalk`), the
chosen child is realized exactly as `precalcNextBuf` does (that call is
inlined here so that the recursion is visibly on a smaller reader), the
child buffer is sought to the remaining residual and must land exactly
there ("failed to seek properly" otherwise).  `SEEK_CUR` re-enters with
`dr.offset + offset`, `SEEK_END` with `filesize - offset`.  The reader
state is returned alongside the verdict, mutated exactly as far as the
source mutates `dr` on each path. -/
def DagReader.seek : DagReader → Int → Whence → Except RErr Int × DagReader
  | .mk pb promises b lp o, off, .set =>
    if off < 0 then (.error .invalidOffset, .mk pb promises b lp o)
    else if (pb.contents.length : Int) ≥ off then
      -- dr.buf.Close(); dr.buf = NewRSNCFromBytes(pb.GetData()[offset:])
      (.ok off, .mk pb promises (.cursor (pb.contents.drop off.toNat) 0) 0 off)
    else
      let left := off - pb.contents.length
      match seekWalk pb.blocksizes 0 left with
      | (found, left') =>
        -- on break the loop assigned linkPosition; otherwise it is stale
        let p := found.getD lp
        -- precalcNextBuf, inlined:
        if hp : p < promises.length then
          match (promises[p]).nodeData with
          | .malformed => (.error .unmarshalFailed, .mk pb promises b (p + 1) o)
          | .ok cpb =>
            match cpb.typ with
            | .directory => (.error .invalidDirLocation, .mk pb promises b (p + 1) o)
            | .metadata => (.error .metadataInFile, .mk pb promises b (p + 1) o)
            | .other => (.error .unrecognizedType, .mk pb promises b (p + 1) o)
            | .raw =>
              -- child buffer: bytes.Reader over the raw chunk, then
              -- buf.Seek(left, SEEK_SET) (negative is refused, beyond the
              -- end is accepted and returned verbatim), then the
              -- `left -= n; left != 0` sanity check — always 0 here.
              if left' < 0 then
                (.error .negativeCursorSeek,
                  .mk pb promises (.cursor cpb.contents 0) (p + 1) o)
              else
                (.ok off, .mk pb promises (.cursor cpb.contents left'.toNat) (p + 1) off)
            | .file =>
              match DagReader.seek (newDataFileReader (promises[p]) cpb) left' .set with
              | (.error e, child') =>
                (.error e, .mk pb promises (.sub child') (p + 1) o)
              | (.ok m, child') =>
                if left' - m ≠ 0 then
                  (.error .failedSeek, .mk pb promises (.sub child') (p + 1) o)
                else
                  (.ok off, .mk pb promises (.sub child') (p + 1) off)
        else (.error .eof, .mk pb promises b p o)
  | .mk pb promises b lp o, off, .cur =>
    DagReader.seek (.mk pb promises b lp o) (o + off) .set
  | .mk pb promises b lp o, off, .fromEnd =>
    DagReader.seek (.mk pb promises b lp o) ((pb.filesize : Int) - off) .set
termination_by dr _ wh => (drWeight dr, match wh with | .set => 0 | _ => 1)
decreasing_by
  · apply Prod.Lex.left
    have h1 := drWeight_newDataFileReader_le (promises[found.getD lp]) cpb
    have h2 := nodeWeight_getElem_le promises (found.getD lp) hp
    have h3 : drWeight (DagReader.mk pb promises b lp o) =
        1 + nodesWeight promises + drWeight.bufWeight b := rfl
    omega
  · apply Prod.Lex.right
    omega
  · apply Prod.Lex.right
    omega

/-! ### Analysis of the chunk walk -/

theorem sum_take_mono (S : List Nat) {i j : Nat} (h : i ≤ j) :
    (S.take i).sum ≤ (S.take j).sum := by
  induction S generalizing i j with
  | nil => simp
  | cons s rest ih =>
    cases i with
    | zero => simp
    | succ i' =>
      cases j with
      | zero => omega
      | succ j' =>
        simp only [List.take_succ_cons, List.sum_cons]
        have := ih (Nat.succ_le_succ_iff.mp h)
        omega

theorem take_sum_interval_unique (S : List Nat) {i k : Nat} (v : Int)
    (hi : ((S.take i).sum : Int) ≤ v ∧ v < ((S.take (i + 1)).sum : Int))
    (hk : ((S.take k).sum : Int) ≤ v ∧ v < ((S.take (k + 1)).sum : Int)) :
    i = k := by
  by_contra hne
  rcases Nat.lt_or_ge i k with hlt | hge
  · have h1 : ((S.take (i + 1)).sum : Int) ≤ ((S.take k).sum : Int) := by
      exact_mod_cast sum_take_mono S hlt
    omega
  · have hk_lt : k < i := Nat.lt_of_le_of_ne hge (fun h => hne h.symm)
    have h1 : ((S.take (k + 1)).sum : Int) ≤ ((S.take i).sum : Int) := by
      exact_mod_cast sum_take_mono S hk_lt
    omega

theorem cast_sum_cons (s : Nat) (rest : List Nat) :
    (((s :: rest).sum : Nat) : Int) = (s : Int) + (rest.sum : Int) := by
  rw [List.sum_cons, Nat.cast_add]

theorem cast_sum_take_cons (s : Nat) (rest : List Nat) (m : Nat) :
    ((((s :: rest).take (m + 1)).sum : Nat) : Int) =
      (s : Int) + ((rest.take m).sum : Int) := by
  rw [List.take_succ_cons, List.sum_cons, Nat.cast_add]

theorem seekWalk_found (S : List Nat) (base : Nat) (left : Int)
    (h0 : 0 ≤ left) (hlt : left < (S.sum : Int)) :
    ∃ k, k < S.length ∧
      seekWalk S base left = (some (base + k), left - ((S.take k).sum : Int)) ∧
      ((S.take k).sum : Int) ≤ left ∧ left < ((S.take (k + 1)).sum : Int) := by
  induction S generalizing base left with
  | nil => simp at hlt; omega
  | cons s rest ih =>
    by_cases hs : (s : Int) > left
    · refine ⟨0, by simp, ?_, by simpa, ?_⟩
      · simp [seekWalk, hs]
      · rw [cast_sum_take_cons]
        simp
        omega
    · push_neg at hs
      have hcast := cast_sum_cons s rest
      have h0' : 0 ≤ left - s := by omega
      have hlt' : left - s < (rest.sum : Int) := by omega
      obtain ⟨k, hk, hwalk, hlo, hhi⟩ := ih (base + 1) (left - s) h0' hlt'
      refine ⟨k + 1, by simp; omega, ?_, ?_, ?_⟩
      · rw [show seekWalk (s :: rest) base left = seekWalk rest (base + 1) (left - s) from by
          simp [seekWalk]; omega]
        rw [hwalk, cast_sum_take_cons]
        simp only [Prod.mk.injEq, Option.some.injEq]
        exact ⟨by omega, by omega⟩
      · rw [cast_sum_take_cons]
        omega
      · rw [cast_sum_take_cons]
        omega

theorem seekWalk_none (S : List Nat) (base : Nat) (left : Int)
    (h : (S.sum : Int) ≤ left) :
    seekWalk S base left = (none, left - (S.sum : Int)) := by
  induction S generalizing base left with
  | nil => simp [seekWalk]
  | cons s rest ih =>
    have hcast := cast_sum_cons s rest
    have hs : ¬((s : Int) > left) := by omega
    rw [show seekWalk (s :: rest) base left = seekWalk rest (base + 1) (left - s) from by
      simp [seekWalk]; omega]
    rw [ih (base + 1) (left - s) (by omega)]
    congr 1
    omega

/-! ### Well-formedness carried by a reader state -/

/-- The well-formedness of the node a reader was opened on, phrased on
the fields the reader actually keeps: decoded payload and promise list. -/
def wfDR : DagReader → Bool
  | .mk pb promises _ _ _ =>
    (pb.typ = .raw || pb.typ = .file) &&
    promises.length = pb.blocksizes.length &&
    pb.filesize = pb.contents.length + pb.blocksizes.sum &&
    wfChunks promises pb.blocksizes

theorem wfDR_of_wfFile {n : DagNode} {pb : PBData}
    (hwf : wfFile n = true) (hd : n.nodeData = .ok pb) :
    wfDR (newDataFileReader n pb) = true := by
  rw [wfFile, hd] at hwf
  simp only [List.unzip_eq_map] at hwf
  simpa [wfDR, newDataFileReader] using hwf

theorem wfChunks_length : ∀ (cs : List DagNode) (ss : List Nat),
    wfChunks cs ss = true → cs.length = ss.length
  | [], [], _ => rfl
  | [], _ :: _, h => by simp [wfChunks] at h
  | _ :: _, [], h => by simp [wfChunks] at h
  | c :: cs, s :: ss, h => by
    rw [wfChunks, Bool.and_eq_true] at h
    have := wfChunks_length cs ss h.2
    simp [this]

theorem wfChunks_getElem : ∀ (cs : List DagNode) (ss : List Nat),
    wfChunks cs ss = true →
    ∀ (i : Nat) (hi : i < cs.length) (hsi : i < ss.length),
    ∃ cpb, (cs.get ⟨i, hi⟩).nodeData = .ok cpb ∧
      ((cpb.typ = .raw ∧ cpb.contents.length = ss.get ⟨i, hsi⟩) ∨
       (cpb.typ = .file ∧ wfFile (cs.get ⟨i, hi⟩) = true ∧
        cpb.filesize = ss.get ⟨i, hsi⟩))
  | c :: cs, s :: ss, h, 0, _, _ => by
    rw [wfChunks, Bool.and_eq_true] at h
    obtain ⟨h1, _⟩ := h
    cases hd : c.nodeData with
    | malformed => rw [hd] at h1; simp at h1
    | ok cpb =>
      rw [hd] at h1
      simp only [] at h1
      refine ⟨cpb, by simpa using hd, ?_⟩
      cases htyp : cpb.typ with
      | raw =>
        rw [htyp] at h1
        simp only [decide_eq_true_eq] at h1
        exact .inl ⟨rfl, by simpa using h1⟩
      | file =>
        rw [htyp] at h1
        simp only [Bool.and_eq_true, decide_eq_true_eq] at h1
        exact .inr ⟨rfl, by simpa using h1.1, by simpa using h1.2⟩
      | directory => rw [htyp] at h1; simp at h1
      | metadata => rw [htyp] at h1; simp at h1
      | other => rw [htyp] at h1; simp at h1
  | c :: cs, s :: ss, h, i + 1, hi, hsi => by
    rw [wfChunks, Bool.and_eq_true] at h
    have := wfChunks_getElem cs ss h.2 i (by simpa using hi) (by simpa using hsi)
    simpa using this
  | [], _, _, i, hi, _ => by simp at hi
  | _ :: _, [], h, _, _, _ => by simp [wfChunks] at h

theorem drWeight_pos (dr : DagReader) : 1 ≤ drWeight dr := by
  cases dr with
  | mk pb promises b lp o =>
    show 1 ≤ 1 + nodesWeight promises + drWeight.bufWeight b
    omega

theorem drWeight_child_lt (pb : PBData) (promises : List DagNode) (b : DRBuf)
    (lp : Nat) (o : Int) (k : Nat) (hk : k < promises.length) (cpb : PBData) :
    drWeight (newDataFileReader (promises[k]) cpb) <
      drWeight (.mk pb promises b lp o) := by
  have h1 := drWeight_newDataFileReader_le (promises[k]) cpb
  have h2 := nodeWeight_getElem_le promises k hk
  have h3 : drWeight (DagReader.mk pb promises b lp o) =
      1 + nodesWeight promises + drWeight.bufWeight b := rfl
  omega

/-! ### The three success paths of `Seek(x, SEEK_SET)` -/

theorem seek_set_inline (pb : PBData) (promises : List DagNode) (b : DRBuf)
    (lp : Nat) (o : Int) (x : Int)
    (hne : ¬ x < 0) (hin : (pb.contents.length : Int) ≥ x) :
    DagReader.seek (.mk pb promises b lp o) x .set =
      (.ok x, .mk pb promises (.cursor (pb.contents.drop x.toNat) 0) 0 x) := by
  simp only [DagReader.seek]
  rw [if_neg hne, if_pos hin]

theorem seek_set_raw_chunk (pb : PBData) (promises : List DagNode) (b : DRBuf)
    (lp : Nat) (o : Int) (x : Int) (k : Nat) (cpb : PBData) (l' : Int)
    (hne : ¬ x < 0) (hgt : ¬ ((pb.contents.length : Int) ≥ x))
    (hwalk : seekWalk pb.blocksizes 0 (x - (pb.contents.length : Int)) = (some k, l'))
    (hk : k < promises.length)
    (hnd : (promises[k]).nodeData = .ok cpb)
    (ht : cpb.typ = .raw)
    (hl0 : ¬ l' < 0) :
    DagReader.seek (.mk pb promises b lp o) x .set =
      (.ok x, .mk pb promises (.cursor cpb.contents l'.toNat) (k + 1) x) := by
  simp only [DagReader.seek]
  rw [if_neg hne, if_neg hgt, hwalk]
  simp only [Option.getD_some]
  rw [dif_pos hk]
  simp only [hnd, ht]
  rw [if_neg hl0]

theorem seek_set_file_chunk (pb : PBData) (promises : List DagNode) (b : DRBuf)
    (lp : Nat) (o : Int) (x : Int) (k : Nat) (cpb : PBData) (l' : Int)
    (child' : DagReader)
    (hne : ¬ x < 0) (hgt : ¬ ((pb.contents.length : Int) ≥ x))
    (hwalk : seekWalk pb.blocksizes 0 (x - (pb.contents.length : Int)) = (some k, l'))
    (hk : k < promises.length)
    (hnd : (promises[k]).nodeData = .ok cpb)
    (ht : cpb.typ = .file)
    (hchild : DagReader.seek (newDataFileReader (promises[k]) cpb) l' .set =
      (.ok l', child')) :
    DagReader.seek (.mk pb promises b lp o) x .set =
      (.ok x, .mk pb promises (.sub child') (k + 1) x) := by
  simp only [DagReader.seek]
  rw [if_neg hne, if_neg hgt, hwalk]
  simp only [Option.getD_some]
  rw [dif_pos hk]
  simp only [hnd, ht]
  rw [hchild]
  simp

/-- In-range `Seek(x, SEEK_SET)` on a well-formed reader (any buffer
state, any link position) succeeds, returns `x`, sets `offset = x`, and
positions the machinery as the source does: within the inline bytes it
resets to a cursor at `x` with `link_position = 0`; beyond them it
realizes the chunk `k` whose cumulative-size interval contains the
residual (`linkPosition` becomes `k + 1`) and, for a raw chunk, leaves
the buffer a cursor over that chunk at the residual position.
Fuel-indexed formulation (`drWeight dr ≤ w`) for the nested induction. -/
theorem seek_set_ok_aux (w : Nat) : ∀ (dr : DagReader) (x : Int),
    drWeight dr ≤ w → wfDR dr = true → 0 ≤ x → x < (dr.pbd.filesize : Int) →
    ∃ dr', dr.seek x .set = (.ok x, dr') ∧
      dr'.pbd = dr.pbd ∧ dr'.promises = dr.promises ∧ dr'.offset = x ∧
      (x ≤ (dr.pbd.contents.length : Int) →
        dr'.linkPos = 0 ∧ dr'.buf = .cursor (dr.pbd.contents.drop x.toNat) 0) ∧
      ((dr.pbd.contents.length : Int) < x →
        ∃ k, k < dr.pbd.blocksizes.length ∧ dr'.linkPos = k + 1 ∧
          ((dr.pbd.blocksizes.take k).sum : Int) ≤ x - (dr.pbd.contents.length : Int) ∧
          x - (dr.pbd.contents.length : Int) <
            ((dr.pbd.blocksizes.take (k + 1)).sum : Int) ∧
          (∀ c cpb, dr.promises[k]? = some c → c.nodeData = .ok cpb →
            cpb.typ = .raw →
            dr'.buf = .cursor cpb.contents
              (x - (dr.pbd.contents.length : Int) -
                ((dr.pbd.blocksizes.take k).sum : Int)).toNat)) := by
  induction w with
  | zero =>
    intro dr x hw _ _ _
    exact absurd hw (by have := drWeight_pos dr; omega)
  | succ w ih =>
    rintro ⟨pb, promises, b, lp, o⟩ x hw hwf h0 hlt
    simp only [DagReader.pbd_mk, DagReader.promises_mk] at hlt ⊢
    rw [wfDR] at hwf
    simp only [Bool.and_eq_true, Bool.or_eq_true, decide_eq_true_eq] at hwf
    obtain ⟨⟨⟨htyp, hlen⟩, hsize⟩, hchunks⟩ := hwf
    have hne : ¬ x < 0 := by omega
    have hszInt : ((pb.filesize : Nat) : Int) =
        (pb.contents.length : Int) + (pb.blocksizes.sum : Int) := by
      rw [hsize, Nat.cast_add]
    by_cases hin : (pb.contents.length : Int) ≥ x
    · refine ⟨.mk pb promises (.cursor (pb.contents.drop x.toNat) 0) 0 x,
        seek_set_inline pb promises b lp o x hne hin, rfl, rfl, rfl,
        fun _ => ⟨rfl, rfl⟩, fun hgt => absurd hgt (by omega)⟩
    · have hx : (pb.contents.length : Int) < x := by omega
      have h0' : 0 ≤ x - (pb.contents.length : Int) := by omega
      have hltsum : x - (pb.contents.length : Int) < (pb.blocksizes.sum : Int) := by
        omega
      obtain ⟨k, hkS, hwalk, hlo, hhi⟩ :=
        seekWalk_found pb.blocksizes 0 (x - (pb.contents.length : Int)) h0' hltsum
      simp only [Nat.zero_add] at hwalk
      have hkP : k < promises.length := by omega
      obtain ⟨cpb, hnd, hcase⟩ := wfChunks_getElem promises pb.blocksizes hchunks k hkP
        (by omega)
      simp only [List.get_eq_getElem] at hnd hcase
      have hsucc : ((pb.blocksizes.take (k + 1)).sum : Int) =
          ((pb.blocksizes.take k).sum : Int) + ((pb.blocksizes[k] : Nat) : Int) := by
        rw [List.sum_take_succ pb.blocksizes k hkS, Nat.cast_add]
      rcases hcase with ⟨htr, hclen⟩ | ⟨htf, hcwf, hcfs⟩
      · -- raw chunk
        have hl0 : ¬ (x - (pb.contents.length : Int) -
            ((pb.blocksizes.take k).sum : Int)) < 0 := by omega
        refine ⟨.mk pb promises
            (.cursor cpb.contents
              (x - (pb.contents.length : Int) -
                ((pb.blocksizes.take k).sum : Int)).toNat) (k + 1) x,
          seek_set_raw_chunk pb promises b lp o x k cpb _ hne hin hwalk hkP hnd htr hl0,
          rfl, rfl, rfl, fun hle => absurd hle (by omega), ?_⟩
        intro _
        refine ⟨k, by omega, rfl, hlo, hhi, ?_⟩
        intro c cpb' hc hnd' _
        rw [List.getElem?_eq_getElem hkP] at hc
        have hceq : c = promises[k] := by
          injection hc with hc'
          exact hc'.symm
        rw [hceq, hnd] at hnd'
        injection hnd' with hcpb'
        rw [← hcpb']
        rfl
      · -- file chunk
        have hchild_wf : wfDR (newDataFileReader (promises[k]) cpb) = true :=
          wfDR_of_wfFile hcwf hnd
        have hchild_w : drWeight (newDataFileReader (promises[k]) cpb) ≤ w := by
          have := drWeight_child_lt pb promises b lp o k hkP cpb
          omega
        have hchild_lt : x - (pb.contents.length : Int) -
            ((pb.blocksizes.take k).sum : Int) <
            (((newDataFileReader (promises[k]) cpb).pbd.filesize : Nat) : Int) := by
          have : (newDataFileReader (promises[k]) cpb).pbd = cpb := rfl
          rw [this, hcfs]
          omega
        obtain ⟨child', hcseq, _, _, _, _, _⟩ :=
          ih (newDataFileReader (promises[k]) cpb)
            (x - (pb.contents.length : Int) - ((pb.blocksizes.take k).sum : Int))
            hchild_w hchild_wf (by omega) hchild_lt
        refine ⟨.mk pb promises (.sub child') (k + 1) x,
          seek_set_file_chunk pb promises b lp o x k cpb _ child' hne hin hwalk hkP
            hnd htf hcseq,
          rfl, rfl, rfl, fun hle => absurd hle (by omega), ?_⟩
        intro _
        refine ⟨k, by omega, rfl, hlo, hhi, ?_⟩
        intro c cpb' hc hnd' ht'
        rw [List.getElem?_eq_getElem hkP] at hc
        have hceq : c = promises[k] := by
          injection hc with hc'
          exact hc'.symm
        rw [hceq, hnd] at hnd'
        injection hnd' with hcpb'
        rw [← hcpb'] at ht'
        rw [htf] at ht'
        exact absurd ht' (by simp)

/-- In-range `Seek(x, SEEK_SET)` on a well-formed reader: wrapper of
`seek_set_ok_aux` at fuel `drWeight dr`. -/
theorem seek_set_ok (dr : DagReader) (x : Int) (hwf : wfDR dr = true)
    (h0 : 0 ≤ x) (hlt : x < (dr.pbd.filesize : Int)) :
    ∃ dr', dr.seek x .set = (.ok x, dr') ∧
      dr'.pbd = dr.pbd ∧ dr'.promises = dr.promises ∧ dr'.offset = x ∧
      (x ≤ (dr.pbd.contents.length : Int) →
        dr'.linkPos = 0 ∧ dr'.buf = .cursor (dr.pbd.contents.drop x.toNat) 0) ∧
      ((dr.pbd.contents.length : Int) < x →
        ∃ k, k < dr.pbd.blocksizes.length ∧ dr'.linkPos = k + 1 ∧
          ((dr.pbd.blocksizes.take k).sum : Int) ≤ x - (dr.pbd.contents.length : Int) ∧
          x - (dr.pbd.contents.length : Int) <
            ((dr.pbd.blocksizes.take (k + 1)).sum : Int) ∧
          (∀ c cpb, dr.promises[k]? = some c → c.nodeData = .ok cpb →
            cpb.typ = .raw →
            dr'.buf = .cursor cpb.contents
              (x - (dr.pbd.contents.length : Int) -
                ((dr.pbd.blocksizes.take k).sum : Int)).toNat)) :=
  seek_set_ok_aux (drWeight dr) dr x le_rfl hwf h0 hlt

/-- C5 (amended).  `Seek(x, Set)` rejects negative `x` with the
"Invalid offset" error; for a well-formed reader and `0 ≤ x < filesize`
(any buffer state and link position) it succeeds, both returning `x` and
leaving `offset = x` — which equals `clamp(x, 0, filesize)` on that
range; `Seek(off, Cur)` re-enters `Seek` at target `current_offset +
off` and `Seek(off, End)` at target `filesize - off`, so negative
resolved targets are rejected the same way.  (For `x > filesize` the
source does not clamp: see the counterexample.) -/
theorem dagReader_seek_resolution (dr : DagReader) (x : Int) :
    (x < 0 → (dr.seek x .set).1 = .error .invalidOffset) ∧
    (wfDR dr = true → 0 ≤ x → x < (dr.pbd.filesize : Int) →
      (dr.seek x .set).1 = .ok x ∧ ((dr.seek x .set).2).offset = x) ∧
    (dr.seek x .cur = dr.seek (dr.offset + x) .set) ∧
    (dr.seek x .fromEnd = dr.seek ((dr.pbd.filesize : Int) - x) .set) := by
  obtain ⟨pb, promises, b, lp, o⟩ := dr
  refine ⟨?_, ?_, ?_, ?_⟩
  · intro hneg
    simp only [DagReader.seek]
    rw [if_pos hneg]
  · intro hwf h0 hlt
    obtain ⟨dr', heq, _, _, hoff, _, _⟩ := seek_set_ok _ x hwf h0 hlt
    rw [heq]
    exact ⟨rfl, hoff⟩
  · simp only [DagReader.seek, DagReader.offset_mk, DagReader.pbd_mk]
  · simp only [DagReader.seek, DagReader.offset_mk, DagReader.pbd_mk]

/-- Concrete reader for the seek counterexamples: a well-formed file
node with no inline bytes, a single raw chunk `[7]`, filesize `1`. -/
def exC5node : DagNode :=
  .mk (.ok ⟨.file, [], 1, [1]⟩) [("a", .mk (.ok ⟨.raw, [7], 1, []⟩) [])]

/-- Fresh reader over `exC5node`. -/
def exC5dr : DagReader := newDataFileReader exC5node ⟨.file, [], 1, [1]⟩

/-- C5 counterexample.  On a well-formed reader with `filesize = 1`,
`Seek(5, Set)` succeeds and reports position `5`, not
`clamp(5, 0, 1) = 1`: offsets beyond the end are not clamped (the walk
falls off the blocksizes, the stale `linkPosition` 0 realizes the first
chunk, and the `bytes.Reader` accepts a position past its end). -/
theorem seek_clamp_counterexample :
    wfDR exC5dr = true ∧ exC5dr.pbd.filesize = 1 ∧
    (exC5dr.seek 5 .set).1 = .ok 5 ∧ ((5 : Int) ≠ max 0 (min 5 (1 : Int))) := by
  refine ⟨by simp [exC5dr, exC5node, newDataFileReader, wfDR, wfChunks], rfl, ?_, by decide⟩
  simp [exC5dr, exC5node, newDataFileReader, DagReader.seek, seekWalk]

/-- Witness for C5 (amended) at `exC5dr`, `x = 0`. -/
theorem dagReader_seek_resolution_witness :
    (exC5dr.seek 0 .set).1 = .ok 0 ∧ ((exC5dr.seek 0 .set).2).offset = 0 :=
  (dagReader_seek_resolution exC5dr 0).2.1
    (by simp [exC5dr, exC5node, newDataFileReader, wfDR, wfChunks])
    (by norm_num)
    (by norm_num [exC5dr, exC5node, newDataFileReader])

/-- C6.  `Seek(t, Set)`: for `t ≤ I` (the inline byte length) the buffer
is reset to a byte cursor positioned at `t` (a cursor over
`Data[t:]` at position 0) with `link_position = 0` and `offset = t`; for
`t > I` (within the file) the chunk realized is the one whose
cumulative-size interval contains the residual `t - I` — i.e. the
smallest `i` with `S[i]` strictly greater than the residual left after
subtracting chunks `0..i-1` — leaving `linkPosition = i + 1`; and when
the residual equals the cumulative size of chunks `0..i-1` exactly (and
chunk `i` is raw and non-empty), the buffer ends on chunk `i` at
position 0, so the boundary byte is read as the first byte of chunk
`i`. -/
theorem dagReader_seek_positioning (dr : DagReader) (t : Int) :
    (0 ≤ t → t ≤ (dr.pbd.contents.length : Int) →
      dr.seek t .set = (.ok t,
        .mk dr.pbd dr.promises (.cursor (dr.pbd.contents.drop t.toNat) 0) 0 t)) ∧
    (wfDR dr = true → (dr.pbd.contents.length : Int) < t →
      t < (dr.pbd.filesize : Int) →
      ∀ i, ((dr.pbd.blocksizes.take i).sum : Int) ≤ t - (dr.pbd.contents.length : Int) →
        t - (dr.pbd.contents.length : Int) <
          ((dr.pbd.blocksizes.take (i + 1)).sum : Int) →
        (dr.seek t .set).1 = .ok t ∧ ((dr.seek t .set).2).linkPos = i + 1) ∧
    (wfDR dr = true → (dr.pbd.contents.length : Int) < t →
      t < (dr.pbd.filesize : Int) →
      ∀ i c cpb,
        t - (dr.pbd.contents.length : Int) = ((dr.pbd.blocksizes.take i).sum : Int) →
        t - (dr.pbd.contents.length : Int) <
          ((dr.pbd.blocksizes.take (i + 1)).sum : Int) →
        dr.promises[i]? = some c → c.nodeData = .ok cpb → cpb.typ = .raw →
        (dr.seek t .set).1 = .ok t ∧ ((dr.seek t .set).2).linkPos = i + 1 ∧
        ((dr.seek t .set).2).buf = .cursor cpb.contents 0) := by
  refine ⟨?_, ?_, ?_⟩
  · intro h0 hin
    obtain ⟨pb, promises, b, lp, o⟩ := dr
    exact seek_set_inline pb promises b lp o t (by omega) (by simpa using hin)
  · intro hwf hgt hlt i hlo hhi
    obtain ⟨dr', heq, _, _, _, _, hbeyond⟩ := seek_set_ok dr t hwf (by omega) hlt
    obtain ⟨k, hkS, hlink, hlo2, hhi2, _⟩ := hbeyond hgt
    have hik : i = k :=
      take_sum_interval_unique dr.pbd.blocksizes
        (t - (dr.pbd.contents.length : Int)) ⟨hlo, hhi⟩ ⟨hlo2, hhi2⟩
    rw [heq]
    exact ⟨rfl, by rw [hlink, hik]⟩
  · intro hwf hgt hlt i c cpb hbound hhi hc hnd ht
    obtain ⟨dr', heq, _, _, _, _, hbeyond⟩ := seek_set_ok dr t hwf (by omega) hlt
    obtain ⟨k, hkS, hlink, hlo2, hhi2, hbuf⟩ := hbeyond hgt
    have hik : i = k :=
      take_sum_interval_unique dr.pbd.blocksizes
        (t - (dr.pbd.contents.length : Int)) ⟨by omega, hhi⟩ ⟨hlo2, hhi2⟩
    subst hik
    have hbuf' := hbuf c cpb hc hnd ht
    rw [heq]
    refine ⟨rfl, by rw [hlink], ?_⟩
    rw [hbuf']
    have : (t - (dr.pbd.contents.length : Int) -
        ((dr.pbd.blocksizes.take i).sum : Int)) = 0 := by omega
    rw [this]
    rfl

/-- Reader over `exC1` used in the C6 witness. -/
def exC6dr : DagReader := newDataFileReader exC1 ⟨.file, [10, 20], 5, [2, 1]⟩

/-- Witness for C6 at `exC6dr`: inline seek to 1, and a boundary seek to
`t = 4 = I + S[0]` landing on the first byte of chunk 1. -/
theorem dagReader_seek_positioning_witness :
    (exC6dr.seek 1 .set = (.ok 1,
      .mk exC6dr.pbd exC6dr.promises
        (.cursor (exC6dr.pbd.contents.drop (1 : Int).toNat) 0) 0 1)) ∧
    ((exC6dr.seek 4 .set).1 = .ok 4 ∧ ((exC6dr.seek 4 .set).2).linkPos = 2 ∧
      ((exC6dr.seek 4 .set).2).buf = .cursor [9] 0) :=
  ⟨(dagReader_seek_positioning exC6dr 1).1 (by norm_num)
      (by norm_num [exC6dr, exC1, newDataFileReader]),
   (dagReader_seek_positioning exC6dr 4).2.2
      (by simp [exC6dr, exC1, newDataFileReader, wfDR, wfChunks, wfFile])
      (by norm_num [exC6dr, exC1, newDataFileReader])
      (by norm_num [exC6dr, exC1, newDataFileReader])
      1 (.mk (.ok ⟨.raw, [9], 1, []⟩) []) ⟨.raw, [9], 1, []⟩
      (by norm_num [exC6dr, exC1, newDataFileReader])
      (by norm_num [exC6dr, exC1, newDataFileReader])
      (by simp [exC6dr, exC1, newDataFileReader])
      rfl rfl⟩

/-- C8 (amended).  `NewDagReader` on a `Metadata` node fails only when
the node has NO links ("incorrectly formatted metadata object"); with
one or more links it recurses on the FIRST link's child — it does not
require exactly one link. -/
theorem newDagReader_metadata_links (n : DagNode) (pb : PBData)
    (hd : n.nodeData = .ok pb) (ht : pb.typ = .metadata) :
    (n.links = [] → NewDagReader n = .error .badMetadataNode) ∧
    (∀ c rest, n.links = c :: rest → NewDagReader n = NewDagReader c.2) := by
  constructor
  · intro hl
    conv_lhs => rw [NewDagReader.eq_def]
    simp only [hd, ht]
    split
    · rfl
    · rename_i c2 tail h2
      rw [hl] at h2
      simp at h2
  · intro c rest hl
    conv_lhs => rw [NewDagReader.eq_def]
    simp only [hd, ht]
    split
    · rename_i h2
      rw [hl] at h2
      simp at h2
    · rename_i c2 tail h2
      rw [hl] at h2
      injection h2 with h3 h4
      rw [← h3]

/-- Raw leaf used by the C8 counterexample. -/
def exC8a : DagNode := .mk (.ok ⟨.raw, [1], 1, []⟩) []

/-- A `Metadata` node with TWO links. -/
def exC8 : DagNode :=
  .mk (.ok ⟨.metadata, [], 0, []⟩)
    [("a", exC8a), ("b", .mk (.ok ⟨.raw, [2], 1, []⟩) [])]

/-- C8 counterexample.  A `Metadata` node with two links does not make
reader construction fail: `NewDagReader` succeeds, reading the first
link's child — the source only rejects `len(n.Links) == 0`, not
"exactly one link". -/
theorem newDagReader_metadata_counterexample :
    exC8.links.length = 2 ∧
    NewDagReader exC8 = .ok (newDataFileReader exC8a ⟨.raw, [1], 1, []⟩) := by
  constructor
  · rfl
  · simp [NewDagReader, exC8, exC8a]

/-- Witness for C8 (amended) at `exC8`. -/
theorem newDagReader_metadata_links_witness :
    (exC8.links = [] → NewDagReader exC8 = .error .badMetadataNode) ∧
    (∀ c rest, exC8.links = c :: rest → NewDagReader exC8 = NewDagReader c.2) :=
  newDagReader_metadata_links exC8 ⟨.metadata, [], 0, []⟩ rfl rfl

/-! ## The mutable directory overlay (`ipnsfs/dir.go`)

The overlay is modelled per directory: a `Dir` carries its own name, its
current DAG node and the two caches.  Cached child directories are full
`Dir` values (created by `NewDirectory` with empty caches, exactly as
the source materializes them); cached files carry name and node — the
fields of the source's `file` struct that `dir.go` reads (`fi.name`,
`fi.node` — `file.go` is not part of the sources, so the file overlay is
modelled from the spec, §4.4: attributes `dag_node`, `name`, `parent`,
`dserv`).  The `DAGService` is content-addressed, so `lnk.GetNode` is
projection of the node embedded in the link and `dserv.Add` always
succeeds; calls to `Add` and to `parent.closeChild` are recorded as
effects (`Eff`).  Go mutates maps and nodes in place, so every
operation returns the final directory state alongside its verdict, on
error paths too. -/

/-- Errors of the directory overlay: `ErrNoSuch`, `ErrIsDirectory`, the
"%s is not a directory" error, the two `Mkdir` errors, `AddChild`'s
"directory already has entry by that name", `dag.ErrNotFound` (from
`RemoveNodeLink`), the `ft.FromBytes` failure, and a constructor for the
`panic` calls of the source (`childFile`/`childDir` on `Metadata` or
unknown kinds, `AddChild` on an unknown kind). -/
inductive DErr where
  | noSuch              -- ErrNoSuch
  | isDirectory         -- ErrIsDirectory
  | notADirectory (name : String)  -- fmt.Errorf("%s is not a directory", name)
  | dirExists           -- "directory by that name already exists"
  | fileExists          -- "file by that name already exists"
  | alreadyHasEntry     -- "directory already has entry by that name"
  | notFound            -- dag.ErrNotFound
  | unmarshalFailed     -- ft.FromBytes error
  | panicked (msg : String)
deriving DecidableEq, Repr

/-- Modelled from the spec (file.go is not among the sources): the File
Overlay's attributes read by `dir.go` are its `name` and its current
`dag_node` (§4.4; `parent` and `dserv` carry no state the directory
reads). -/
structure FileOv where
  name : String
  node : DagNode

/-- A directory overlay (`ipnsfs.Directory`): current node, own name,
the two caches.  `parent` and `dserv` are modelled as effects /
content-addressed projection (see section comment). -/
inductive Dir where
  | mk (name : String) (node : DagNode)
      (childDirs : List (String × Dir)) (files : List (String × FileOv))

/-- Name of the directory within its parent. -/
def Dir.name : Dir → String
  | .mk n _ _ _ => n

/-- The directory's current DAG node. -/
def Dir.node : Dir → DagNode
  | .mk _ nd _ _ => nd

/-- The materialized child-directory cache. -/
def Dir.childDirs : Dir → List (String × Dir)
  | .mk _ _ ds _ => ds

/-- The materialized file cache. -/
def Dir.files : Dir → List (String × FileOv)
  | .mk _ _ _ fs => fs

/-- Replace the DAG node (the source assigns through the struct). -/
def Dir.setNode : Dir → DagNode → Dir
  | .mk n _ ds fs, nd => .mk n nd ds fs

/-- Replace the child-directory cache. -/
def Dir.setDirs : Dir → List (String × Dir) → Dir
  | .mk n nd _ fs, ds => .mk n nd ds fs

/-- Replace the file cache. -/
def Dir.setFiles : Dir → List (String × FileOv) → Dir
  | .mk n nd ds _, fs => .mk n nd ds fs

@[simp] theorem Dir.name_mk (n : String) (nd : DagNode)
    (ds : List (String × Dir)) (fs : List (String × FileOv)) :
    (Dir.mk n nd ds fs).name = n := rfl
@[simp] theorem Dir.node_mk (n : String) (nd : DagNode)
    (ds : List (String × Dir)) (fs : List (String × FileOv)) :
    (Dir.mk n nd ds fs).node = nd := rfl
@[simp] theorem Dir.childDirs_mk (n : String) (nd : DagNode)
    (ds : List (String × Dir)) (fs : List (String × FileOv)) :
    (Dir.mk n nd ds fs).childDirs = ds := rfl
@[simp] theorem Dir.files_mk (n : String) (nd : DagNode)
    (ds : List (String × Dir)) (fs : List (String × FileOv)) :
    (Dir.mk n nd ds fs).files = fs := rfl
@[simp] theorem Dir.name_setNode (d : Dir) (nd : DagNode) :
    (d.setNode nd).name = d.name := by cases d; rfl
@[simp] theorem Dir.node_setNode (d : Dir) (nd : DagNode) :
    (d.setNode nd).node = nd := by cases d; rfl
@[simp] theorem Dir.childDirs_setNode (d : Dir) (nd : DagNode) :
    (d.setNode nd).childDirs = d.childDirs := by cases d; rfl
@[simp] theorem Dir.files_setNode (d : Dir) (nd : DagNode) :
    (d.setNode nd).files = d.files := by cases d; rfl
@[simp] theorem Dir.name_setDirs (d : Dir) (ds : List (String × Dir)) :
    (d.setDirs ds).name = d.name := by cases d; rfl
@[simp] theorem Dir.node_setDirs (d : Dir) (ds : List (String × Dir)) :
    (d.setDirs ds).node = d.node := by cases d; rfl
@[simp] theorem Dir.childDirs_setDirs (d : Dir) (ds : List (String × Dir)) :
    (d.setDirs ds).childDirs = ds := by cases d; rfl
@[simp] theorem Dir.files_setDirs (d : Dir) (ds : List (String × Dir)) :
    (d.setDirs ds).files = d.files := by cases d; rfl
@[simp] theorem Dir.name_setFiles (d : Dir) (fs : List (String × FileOv)) :
    (d.setFiles fs).name = d.name := by cases d; rfl
@[simp] theorem Dir.node_setFiles (d : Dir) (fs : List (String × FileOv)) :
    (d.setFiles fs).node = d.node := by cases d; rfl
@[simp] theorem Dir.childDirs_setFiles (d : Dir) (fs : List (String × FileOv)) :
    (d.setFiles fs).childDirs = d.childDirs := by cases d; rfl
@[simp] theorem Dir.files_setFiles (d : Dir) (fs : List (String × FileOv)) :
    (d.setFiles fs).files = fs := by cases d; rfl

/-- `NewDirectory(name, node, parent, dserv)`: fresh overlay, empty
caches. -/
def NewDirectory (name : String) (node : DagNode) : Dir :=
  .mk name node [] []

/-- Modelled from the spec (file.go missing): `NewFile(name, node,
parent, dserv)` constructs the file overlay handle over the given node
(§4.4 File Overlay lifecycle; no failure is described). -/
def NewFile (name : String) (node : DagNode) : FileOv :=
  ⟨name, node⟩

/-- Modelled from the spec (unixfs/format.go missing):
`ft.FilePBData(nil, 0)` — the payload of an empty file node: kind
`File`, no inline bytes, filesize 0, no blocksizes (§4.3 Open:
"construct an empty-file DAG node"). -/
def emptyFilePB : PBData := ⟨.file, [], 0, []⟩

/-- The empty-file DAG node built by `Open`'s create path
(`fnode := new(dag.Node); fnode.Data = ft.FilePBData(nil, 0)`). -/
def emptyFileNode : DagNode := .mk (.ok emptyFilePB) []

/-- Modelled from the spec (unixfs/format.go missing):
`ft.FolderPBData()` — the payload of an empty directory node. -/
def folderPB : PBData := ⟨.directory, [], 0, []⟩

/-- The empty-directory DAG node built by `Mkdir`. -/
def folderNode : DagNode := .mk (.ok folderPB) []

/-- The result of `d.Child(name)`: a directory overlay or a file
overlay (the source's `FSNode` interface). -/
inductive FSNode where
  | dirFS (d : Dir)
  | fileFS (f : FileOv)

/-- `GetNode()` on a child handle. -/
def FSNode.getNode : FSNode → DagNode
  | .dirFS d => d.node
  | .fileFS f => f.node

/-- Effects of an operation on the world outside the directory: the
nodes passed to `dserv.Add` and the names passed to
`parent.closeChild`, each in call order. -/
structure Eff where
  added : List DagNode
  closes : List String

/-- The empty effect. -/
def Eff.none : Eff := ⟨[], []⟩

/-- `os.O_CREATE` (Linux `O_CREAT`). -/
def oCREATE : Nat := 64

/-- First-match lookup in an association list (the source's map reads
and its in-order link scans). -/
def alookup {α : Type} (k : String) : List (String × α) → Option α
  | [] => Option.none
  | (k', v) :: r => if k' = k then some v else alookup k r

/-- Remove every entry with the given key (Go's `delete` on a map; maps
hold at most one entry per key). -/
def aerase {α : Type} (k : String) (l : List (String × α)) : List (String × α) :=
  l.filter (fun p => ¬ (p.1 = k))

/-- Map assignment `m[k] = v`. -/
def ainsert {α : Type} (k : String) (v : α) (l : List (String × α)) :
    List (String × α) :=
  aerase k l ++ [(k, v)]

/-- Modelled from the spec (merkledag/node.go missing):
`node.RemoveNodeLink(name)` removes the link with the given name,
failing with `dag.ErrNotFound` when no such link exists (§4.3 Unlink,
§5 step 4). -/
def removeNodeLink (name : String) (links : List (String × DagNode)) :
    Except DErr (List (String × DagNode)) :=
  match alookup name links with
  | Option.none => .error .notFound
  | some _ => .ok (links.filter (fun p => ¬ (p.1 = name)))

/-- Modelled from the spec (merkledag/node.go missing):
`node.AddNodeLinkClean(name, nd)` installs a clean link: any prior link
with the same name is removed, then the new link is appended (§4.3
Mkdir "clean: remove any prior same-name link, then add", §5 step 5). -/
def addNodeLinkClean (name : String) (nd : DagNode)
    (links : List (String × DagNode)) : List (String × DagNode) :=
  links.filter (fun p => ¬ (p.1 = name)) ++ [(name, nd)]

/-- `Directory.childFile(name)`: answer from the file cache; otherwise
scan `d.node.Links` in order for the name, fetch and decode the target:
`Directory` → `ErrIsDirectory`; `File` → construct, cache and return a
new file overlay; `Metadata` → `panic("NOT YET IMPLEMENTED")`; any
other kind (including `Raw`) → `panic("NO!")`; name absent →
`ErrNoSuch`.  Mutations happen only on the caching path. -/
def Directory.childFile (d : Dir) (name : String) : Except DErr FileOv × Dir :=
  match alookup name d.files with
  | some fi => (.ok fi, d)
  | Option.none =>
    match alookup name d.node.links with
    | some nd =>
      match nd.nodeData with
      | .malformed => (.error .unmarshalFailed, d)
      | .ok pb =>
        match pb.typ with
        | .directory => (.error .isDirectory, d)
        | .file =>
          let nfi := NewFile name nd
          (.ok nfi, d.setFiles (ainsert name nfi d.files))
        | .metadata => (.error (.panicked "NOT YET IMPLEMENTED"), d)
        | .raw => (.error (.panicked "NO!"), d)
        | .other => (.error (.panicked "NO!"), d)
    | Option.none => (.error .noSuch, d)

/-- `Directory.childDir(name)`: answer from the directory cache;
otherwise scan the links, fetch and decode: `Directory` → construct a
fresh overlay via `NewDirectory`, cache and return it; `File` →
"%s is not a directory"; `Metadata`/unknown → panic; absent →
`ErrNoSuch`. -/
def Directory.childDir (d : Dir) (name : String) : Except DErr Dir × Dir :=
  match alookup name d.childDirs with
  | some dir => (.ok dir, d)
  | Option.none =>
    match alookup name d.node.links with
    | some nd =>
      match nd.nodeData with
      | .malformed => (.error .unmarshalFailed, d)
      | .ok pb =>
        match pb.typ with
        | .directory =>
          let ndir := NewDirectory name nd
          (.ok ndir, d.setDirs (ainsert name ndir d.childDirs))
        | .file => (.error (.notADirectory name), d)
        | .metadata => (.error (.panicked "NOT YET IMPLEMENTED"), d)
        | .raw => (.error (.panicked "NO!"), d)
        | .other => (.error (.panicked "NO!"), d)
    | Option.none => (.error .noSuch, d)

/-- `Directory.Child(name)`: `childDir`, else `childFile`, else
`ErrNoSuch`.  A panic in `childDir` unwinds without running
`childFile`; specific lookup errors are collapsed to `ErrNoSuch`. -/
def Directory.Child (d : Dir) (name : String) : Except DErr FSNode × Dir :=
  match Directory.childDir d name with
  | (.ok dir, d1) => (.ok (.dirFS dir), d1)
  | (.error (.panicked m), d1) => (.error (.panicked m), d1)
  | (.error _, d1) =>
    match Directory.childFile d1 name with
    | (.ok fi, d2) => (.ok (.fileFS fi), d2)
    | (.error (.panicked m), d2) => (.error (.panicked m), d2)
    | (.error _, d2) => (.error .noSuch, d2)

/-- `Directory.closeChild(name)`: look the child up (`Child`, which may
materialize it), take its current node, persist it (`dserv.Add`,
recorded as an effect), remove any existing link with that name from
`d.node` (tolerating `dag.ErrNotFound` — inlined here: the removal is
the identity when the link is absent, and the model's `RemoveNodeLink`
has no other failure), install a clean link to the child node, then
notify the parent (`parent.closeChild(d.name)`, recorded as an
effect). -/
def Directory.closeChild (d : Dir) (name : String) :
    Except DErr Unit × Dir × Eff :=
  match Directory.Child d name with
  | (.error e, d1) => (.error e, d1, Eff.none)
  | (.ok child, d1) =>
    let nd := child.getNode
    let links1 := (d1.node.links).filter (fun p => ¬ (p.1 = name))
    let links2 := addNodeLinkClean name nd links1
    let d2 := d1.setNode (d1.node.setLinks links2)
    (.ok (), d2, ⟨[nd], [d1.name]⟩)

/-- `Directory.Open(tpath, mode)`: empty path → `ErrIsDirectory`;
single element → `childFile`, returned via `withMode` (modelled from the
spec as the handle itself, §4.4); on ANY lookup failure the source tests
`mode|os.O_CREATE != 0` — the bitwise OR of the source, not AND — and
creates an empty-file overlay, caching it under the name WITHOUT
touching `d.node` and without any upward close; otherwise `ErrNoSuch`.
Multi-element → resolve the head via `childDir` and recurse (the child
is the same object as the cached one, so the recursion's result is
written back into the cache).  No path of `Open` calls `dserv.Add` or
`parent.closeChild`, so the effect component records what the recursion
produced — `Eff.none` on every leaf. -/
def Directory.Open (d : Dir) (tpath : List String) (mode : Nat) :
    Except DErr FileOv × Dir × Eff :=
  match tpath with
  | [] => (.error .isDirectory, d, Eff.none)
  | [p] =>
    match Directory.childFile d p with
    | (.ok fi, d1) => (.ok fi, d1, Eff.none)
    | (.error (.panicked m), d1) => (.error (.panicked m), d1, Eff.none)
    | (.error _, d1) =>
      if Nat.lor mode oCREATE ≠ 0 then
        let nfi := NewFile p emptyFileNode
        (.ok nfi, d1.setFiles (ainsert p nfi d1.files), Eff.none)
      else (.error .noSuch, d1, Eff.none)
  | p :: rest =>
    match Directory.childDir d p with
    | (.error e, d1) => (.error e, d1, Eff.none)
    | (.ok child, d1) =>
      match Directory.Open child rest mode with
      | (res, child', ceff) => (res, d1.setDirs (ainsert p child' d1.childDirs), ceff)

/-- `Directory.List()`: the link names in link order. -/
def Directory.listNames (d : Dir) : List String :=
  d.node.links.map Prod.fst

/-- `Directory.Mkdir(name)`: fail if `childDir` or `childFile` resolves
the name (each may cache on its success path before the failure is
reported); otherwise link a fresh empty-directory node cleanly, notify
the parent, and return `childDir(name)` (which fetches the new node and
caches the overlay). -/
def Directory.Mkdir (d : Dir) (name : String) :
    Except DErr Dir × Dir × Eff :=
  match Directory.childDir d name with
  | (.ok _, d1) => (.error .dirExists, d1, Eff.none)
  | (.error (.panicked m), d1) => (.error (.panicked m), d1, Eff.none)
  | (.error _, d1) =>
    match Directory.childFile d1 name with
    | (.ok _, d2) => (.error .fileExists, d2, Eff.none)
    | (.error (.panicked m), d2) => (.error (.panicked m), d2, Eff.none)
    | (.error _, d2) =>
      let links2 := addNodeLinkClean name folderNode d2.node.links
      let d3 := d2.setNode (d2.node.setLinks links2)
      let eff : Eff := ⟨[], [d3.name]⟩
      match Directory.childDir d3 name with
      | (.ok dir, d4) => (.ok dir, d4, eff)
      | (.error e, d4) => (.error e, d4, eff)

/-- `Directory.Unlink(name)`: delete the name from BOTH caches first
(unconditionally), then remove the link — failing with
`dag.ErrNotFound` when absent, with the cache deletions already done —
and on success notify the parent. -/
def Directory.Unlink (d : Dir) (name : String) :
    Except DErr Unit × Dir × Eff :=
  let d1 := (d.setDirs (aerase name d.childDirs)).setFiles (aerase name d.files)
  match removeNodeLink name d1.node.links with
  | .error e => (.error e, d1, Eff.none)
  | .ok links' =>
    (.ok (), d1.setNode (d1.node.setLinks links'), ⟨[], [d1.name]⟩)

/-- `Directory.RenameEntry(old, new)`: resolve `old` as a directory
first, else as a file; rewrite the overlay's `name` in place (visible
through the cache alias), remove the old link, add a clean link to the
same child node under `new`, then — in the directory branch — move the
cache entry from `old` to `new` in the DIRECTORY cache, but in the file
branch delete `old` from the DIRECTORY cache (the source deletes from
`d.childDirs`, not `d.files`) and insert the file under `new` in the
file cache; finally notify the parent.  `ErrNoSuch` when neither
resolves. -/
def Directory.RenameEntry (d : Dir) (oldname newname : String) :
    Except DErr Unit × Dir × Eff :=
  match Directory.childDir d oldname with
  | (.ok dir, d1) =>
    -- dir.name = newname mutates the overlay in place; the cached entry
    -- under oldname aliases it, so the cache reflects the rename at once
    let dir2 := Dir.mk newname dir.node dir.childDirs dir.files
    let d1b := d1.setDirs (ainsert oldname dir2 d1.childDirs)
    match removeNodeLink oldname d1b.node.links with
    | .error e => (.error e, d1b, Eff.none)
    | .ok links1 =>
      let links2 := addNodeLinkClean newname dir2.node links1
      let d2 := d1b.setNode (d1b.node.setLinks links2)
      let d3 := d2.setDirs (ainsert newname dir2 (aerase oldname d2.childDirs))
      (.ok (), d3, ⟨[], [d3.name]⟩)
  | (.error (.panicked m), d1) => (.error (.panicked m), d1, Eff.none)
  | (.error _, d1) =>
    match Directory.childFile d1 oldname with
    | (.ok fi, d2) =>
      let fi' : FileOv := ⟨newname, fi.node⟩   -- fi.name = newname, in place
      let d2b := d2.setFiles (ainsert oldname fi' d2.files)
      match removeNodeLink oldname d2b.node.links with
      | .error e => (.error e, d2b, Eff.none)
      | .ok links1 =>
        let links2 := addNodeLinkClean newname fi'.node links1
        let d3 := d2b.setNode (d2b.node.setLinks links2)
        let d4 := d3.setDirs (aerase oldname d3.childDirs)  -- BUG in source: wrong map
        let d5 := d4.setFiles (ainsert newname fi' d4.files)
        (.ok (), d5, ⟨[], [d5.name]⟩)
    | (.error (.panicked m), d2) => (.error (.panicked m), d2, Eff.none)
    | (.error _, d2) => (.error .noSuch, d2, Eff.none)

/-- `Directory.AddChild(name, nd)`: decode the node (failure aborts);
fail `alreadyHasEntry` if `Child(name)` resolves; install a clean link,
then cache an overlay according to the decoded kind — `Directory` → a
fresh directory overlay, `File`/`Metadata`/`Raw` → a file overlay,
unknown → `panic("invalid unixfs node")` (with the link already
installed); finally notify the parent. -/
def Directory.AddChild (d : Dir) (name : String) (nd : DagNode) :
    Except DErr Unit × Dir × Eff :=
  match nd.nodeData with
  | .malformed => (.error .unmarshalFailed, d, Eff.none)
  | .ok pbn =>
    match Directory.Child d name with
    | (.ok _, d1) => (.error .alreadyHasEntry, d1, Eff.none)
    | (.error (.panicked m), d1) => (.error (.panicked m), d1, Eff.none)
    | (.error _, d1) =>
      let links2 := addNodeLinkClean name nd d1.node.links
      let d2 := d1.setNode (d1.node.setLinks links2)
      match pbn.typ with
      | .directory =>
        let d3 := d2.setDirs (ainsert name (NewDirectory name nd) d2.childDirs)
        (.ok (), d3, ⟨[], [d3.name]⟩)
      | .file =>
        let d3 := d2.setFiles (ainsert name (NewFile name nd) d2.files)
        (.ok (), d3, ⟨[], [d3.name]⟩)
      | .metadata =>
        let d3 := d2.setFiles (ainsert name (NewFile name nd) d2.files)
        (.ok (), d3, ⟨[], [d3.name]⟩)
      | .raw =>
        let d3 := d2.setFiles (ainsert name (NewFile name nd) d2.files)
        (.ok (), d3, ⟨[], [d3.name]⟩)
      | .other => (.error (.panicked "invalid unixfs node"), d2, Eff.none)

/-! ### Basic facts about the lookups -/

theorem childFile_snd_name (d : Dir) (n : String) :
    (Directory.childFile d n).2.name = d.name := by
  unfold Directory.childFile
  repeat' split
  all_goals simp

theorem childDir_snd_name (d : Dir) (n : String) :
    (Directory.childDir d n).2.name = d.name := by
  unfold Directory.childDir
  repeat' split
  all_goals simp

theorem childFile_snd_node (d : Dir) (n : String) :
    (Directory.childFile d n).2.node = d.node := by
  unfold Directory.childFile
  repeat' split
  all_goals simp

theorem childDir_snd_node (d : Dir) (n : String) :
    (Directory.childDir d n).2.node = d.node := by
  unfold Directory.childDir
  repeat' split
  all_goals simp

theorem Child_snd_name (d : Dir) (n : String) :
    (Directory.Child d n).2.name = d.name := by
  unfold Directory.Child
  split
  next dir d1 heq =>
    have h1 := childDir_snd_name d n
    rw [heq] at h1
    simpa using h1
  next m d1 heq =>
    have h1 := childDir_snd_name d n
    rw [heq] at h1
    simpa using h1
  next x res d1 hne heq =>
    have h1 := childDir_snd_name d n
    rw [heq] at h1
    simp only at h1
    have h2 := childFile_snd_name d1 n
    split
    next fi d2 heq2 =>
      rw [heq2] at h2
      simpa using h2.trans h1
    next m d2 heq2 =>
      rw [heq2] at h2
      simpa using h2.trans h1
    next y res2 d2 hne2 heq2 =>
      rw [heq2] at h2
      simpa using h2.trans h1

theorem Child_snd_node (d : Dir) (n : String) :
    (Directory.Child d n).2.node = d.node := by
  unfold Directory.Child
  split
  next dir d1 heq =>
    have h1 := childDir_snd_node d n
    rw [heq] at h1
    simpa using h1
  next m d1 heq =>
    have h1 := childDir_snd_node d n
    rw [heq] at h1
    simpa using h1
  next x res d1 hne heq =>
    have h1 := childDir_snd_node d n
    rw [heq] at h1
    simp only at h1
    have h2 := childFile_snd_node d1 n
    split
    next fi d2 heq2 =>
      rw [heq2] at h2
      simpa using h2.trans h1
    next m d2 heq2 =>
      rw [heq2] at h2
      simpa using h2.trans h1
    next y res2 d2 hne2 heq2 =>
      rw [heq2] at h2
      simpa using h2.trans h1

/-! ### Association-list lemmas -/

theorem mem_aerase_ne {α : Type} {k : String} {p : String × α} {l : List (String × α)}
    (hp : p ∈ aerase k l) : ¬ (p.1 = k) := by
  simp [aerase, List.mem_filter] at hp
  exact hp.2

theorem alookup_append_right {α : Type} {k : String} (l1 l2 : List (String × α))
    (h : ∀ p ∈ l1, ¬ (p.1 = k)) :
    alookup k (l1 ++ l2) = alookup k l2 := by
  induction l1 with
  | nil => simp
  | cons hd tl ih =>
    have h1 : ¬ hd.1 = k := h hd (by simp)
    simp only [List.cons_append, alookup, h1, if_neg]
    exact ih (fun p hp => h p (by simp [hp]))

theorem alookup_ainsert {α : Type} (k : String) (v : α) (l : List (String × α)) :
    alookup k (ainsert k v l) = some v := by
  rw [ainsert, alookup_append_right _ _ (fun p hp => mem_aerase_ne hp)]
  simp [alookup]

theorem alookup_aerase_self {α : Type} (k : String) (l : List (String × α)) :
    alookup k (aerase k l) = Option.none := by
  induction l with
  | nil => simp [aerase, alookup]
  | cons hd tl ih =>
    by_cases h : hd.1 = k
    · simpa [aerase, List.filter_cons, h] using ih
    · simpa [aerase, List.filter_cons, alookup, h] using ih

theorem alookup_aerase_ne {α : Type} {k' k : String} (h : k' ≠ k)
    (l : List (String × α)) :
    alookup k' (aerase k l) = alookup k' l := by
  have hkk : ¬ (k = k') := fun hc => h hc.symm
  induction l with
  | nil => simp [aerase]
  | cons hd tl ih =>
    by_cases hh : hd.1 = k
    · simpa [aerase, List.filter_cons, alookup, hh, hkk] using ih
    · by_cases hk' : hd.1 = k'
      · simp [aerase, List.filter_cons, alookup, hh, hk', h]
      · simpa [aerase, List.filter_cons, alookup, hh, hk'] using ih

theorem alookup_ainsert_ne {α : Type} {k' k : String} (h : k' ≠ k) (v : α)
    (l : List (String × α)) :
    alookup k' (ainsert k v l) = alookup k' l := by
  have hkk : ¬ (k = k') := fun hc => h hc.symm
  have h2 : alookup k' (aerase k l ++ [(k, v)]) =
      alookup k' (aerase k l) := by
    induction (aerase k l) with
    | nil => simp [alookup, hkk]
    | cons hd tl ih =>
      by_cases hk' : hd.1 = k'
      · simp [alookup, hk']
      · simpa [alookup, hk'] using ih
  rw [ainsert]
  rw [h2]
  exact alookup_aerase_ne h l

/-- The create-bit test of `Open` (`mode | os.O_CREATE != 0`) is true
for EVERY mode: the OR always contains the `O_CREATE` bit. -/
theorem lor_oCREATE_ne_zero (mode : Nat) : Nat.lor mode oCREATE ≠ 0 := by
  intro h
  have h2 : (mode ||| oCREATE) = 0 := h
  have ht := Nat.testBit_lor mode oCREATE 6
  rw [h2] at ht
  simp [oCREATE] at ht
  exact absurd ht.2 (by decide)

/-- Core of `closeChild` after a successful child lookup: the child's
node is persisted, the link under the name is cleanly replaced, and the
parent is notified with this directory's name. -/
theorem closeChild_run (d : Dir) (n : String) (child : FSNode) (d1 : Dir)
    (h : Directory.Child d n = (.ok child, d1)) :
    Directory.closeChild d n =
      (.ok (), d1.setNode (d1.node.setLinks
        (addNodeLinkClean n child.getNode
          ((d1.node.links).filter (fun p => ¬ (p.1 = n))))),
       ⟨[child.getNode], [d1.name]⟩) := by
  unfold Directory.closeChild
  rw [h]

/-- C2.  A successful `closeChild(n)` (the child resolves, possibly
being materialized into the caches, giving directory state `d1` with
`d1.name = d.name`) persists the child's current DAG node via the
DAGService (`added = [child.getNode]`), removes any link named `n` from
the directory's node — succeeding whether or not such a link exists —
installs a clean link to the persisted node under `n`, and recursively
invokes `closeChild(d.name)` on the parent (`closes = [d.name]`). -/
theorem closeChild_contract (d : Dir) (n : String) (child : FSNode) (d1 : Dir)
    (h : Directory.Child d n = (.ok child, d1)) :
    Directory.closeChild d n =
      (.ok (), d1.setNode (d1.node.setLinks
        (addNodeLinkClean n child.getNode
          ((d1.node.links).filter (fun p => ¬ (p.1 = n))))),
       ⟨[child.getNode], [d.name]⟩) := by
  have hn := Child_snd_name d n
  rw [h] at hn
  simp only at hn
  rw [closeChild_run d n child d1 h, hn]

/-- Directory with a cached file overlay `f` and no links, used for the
C2 witness: `closeChild` succeeds although no link named `f` exists. -/
def exC2 : Dir :=
  .mk "home" (.mk (.ok folderPB) []) [] [("f", ⟨"f", emptyFileNode⟩)]

/-- Witness for C2 at `exC2` and child `f`. -/
theorem closeChild_contract_witness :
    Directory.closeChild exC2 "f" =
      (.ok (), exC2.setNode (exC2.node.setLinks
        (addNodeLinkClean "f" ((FSNode.fileFS ⟨"f", emptyFileNode⟩).getNode)
          ((exC2.node.links).filter (fun p => ¬ (p.1 = "f"))))),
       ⟨[(FSNode.fileFS ⟨"f", emptyFileNode⟩).getNode], [exC2.name]⟩) :=
  closeChild_contract exC2 "f" (.fileFS ⟨"f", emptyFileNode⟩) exC2 rfl

/-- C9.  `Open([c], mode)` on a directory where `c` is absent (not
cached, no link) returns a new empty-file overlay, installs it only in
the file cache, leaves the node (and hence the link set) unchanged, and
performs no `dserv.Add` and no upward close; the name becomes visible
in the link set via a LATER `closeChild(c)` — the upward close the file
overlay initiates on flush — which persists the empty node, links it
under `c` and notifies the parent. -/
theorem open_create_overlay_only (d : Dir) (c : String) (mode : Nat)
    (hdirs : alookup c d.childDirs = Option.none)
    (hf : alookup c d.files = Option.none)
    (hl : alookup c d.node.links = Option.none) :
    Directory.Open d [c] mode =
      (.ok (NewFile c emptyFileNode),
       d.setFiles (ainsert c (NewFile c emptyFileNode) d.files), Eff.none) ∧
    (d.setFiles (ainsert c (NewFile c emptyFileNode) d.files)).node = d.node ∧
    Directory.closeChild (d.setFiles (ainsert c (NewFile c emptyFileNode) d.files)) c =
      (.ok (), (d.setFiles (ainsert c (NewFile c emptyFileNode) d.files)).setNode
        (d.node.setLinks (addNodeLinkClean c emptyFileNode
          ((d.node.links).filter (fun p => ¬ (p.1 = c))))),
       ⟨[emptyFileNode], [d.name]⟩) := by
  have hcf : Directory.childFile d c = (.error .noSuch, d) := by
    unfold Directory.childFile
    rw [hf, hl]
  have hopen : Directory.Open d [c] mode =
      (.ok (NewFile c emptyFileNode),
       d.setFiles (ainsert c (NewFile c emptyFileNode) d.files), Eff.none) := by
    simp only [Directory.Open]
    rw [hcf]
    simp only []
    rw [if_pos (lor_oCREATE_ne_zero mode)]
  refine ⟨hopen, by simp, ?_⟩
  have hcd2 : Directory.childDir
      (d.setFiles (ainsert c (NewFile c emptyFileNode) d.files)) c =
      (.error .noSuch, d.setFiles (ainsert c (NewFile c emptyFileNode) d.files)) := by
    unfold Directory.childDir
    rw [show alookup c (d.setFiles (ainsert c (NewFile c emptyFileNode) d.files)).childDirs =
        Option.none from by simpa using hdirs]
    rw [show alookup c (d.setFiles (ainsert c (NewFile c emptyFileNode) d.files)).node.links =
        Option.none from by simpa using hl]
  have hcf2 : Directory.childFile
      (d.setFiles (ainsert c (NewFile c emptyFileNode) d.files)) c =
      (.ok (NewFile c emptyFileNode),
       d.setFiles (ainsert c (NewFile c emptyFileNode) d.files)) := by
    unfold Directory.childFile
    rw [show alookup c (d.setFiles (ainsert c (NewFile c emptyFileNode) d.files)).files =
        some (NewFile c emptyFileNode) from by simp [alookup_ainsert]]
  have hchild : Directory.Child
      (d.setFiles (ainsert c (NewFile c emptyFileNode) d.files)) c =
      (.ok (.fileFS (NewFile c emptyFileNode)),
       d.setFiles (ainsert c (NewFile c emptyFileNode) d.files)) := by
    unfold Directory.Child
    rw [hcd2]
    simp only []
    rw [hcf2]
  rw [closeChild_run _ c (.fileFS (NewFile c emptyFileNode)) _ hchild]
  simp [NewFile, FSNode.getNode]

/-- Directory used by the C9 and C10 witnesses: one cached file `n`
(as created by `Open`'s create path), no links. -/
def exC9 : Dir := .mk "root" (.mk (.ok folderPB) []) [] []

/-- Witness for C9 at `exC9`, name `n`, mode 0. -/
theorem open_create_overlay_only_witness :
    Directory.Open exC9 ["n"] 0 =
      (.ok (NewFile "n" emptyFileNode),
       exC9.setFiles (ainsert "n" (NewFile "n" emptyFileNode) exC9.files), Eff.none) ∧
    (exC9.setFiles (ainsert "n" (NewFile "n" emptyFileNode) exC9.files)).node = exC9.node ∧
    Directory.closeChild (exC9.setFiles (ainsert "n" (NewFile "n" emptyFileNode) exC9.files)) "n" =
      (.ok (), (exC9.setFiles (ainsert "n" (NewFile "n" emptyFileNode) exC9.files)).setNode
        (exC9.node.setLinks (addNodeLinkClean "n" emptyFileNode
          ((exC9.node.links).filter (fun p => ¬ (p.1 = "n"))))),
       ⟨[emptyFileNode], [exC9.name]⟩) :=
  open_create_overlay_only exC9 "n" 0 rfl rfl rfl

/-- C10.  `Unlink(n)` when the directory's node has no link named `n`
fails with `dag.ErrNotFound` — but the cached child overlays under `n`
have already been deleted from BOTH caches before the failure: the
overlay state is not left unchanged on error (and no upward close is
triggered). -/
theorem unlink_error_still_clears_caches (d : Dir) (n : String)
    (h : alookup n d.node.links = Option.none) :
    Directory.Unlink d n =
      (.error .notFound,
       (d.setDirs (aerase n d.childDirs)).setFiles (aerase n d.files),
       Eff.none) := by
  have hrm : removeNodeLink n d.node.links = .error .notFound := by
    simp [removeNodeLink, h]
  simp [Directory.Unlink, hrm]

/-- Witness for C10: a directory with a cached file under `n` and no
link named `n`; `Unlink` fails yet the file cache has been emptied. -/
theorem unlink_error_still_clears_caches_witness :
    Directory.Unlink (exC9.setFiles (ainsert "n" (NewFile "n" emptyFileNode) exC9.files)) "n" =
      (.error .notFound,
       ((exC9.setFiles (ainsert "n" (NewFile "n" emptyFileNode) exC9.files)).setDirs
          (aerase "n" (exC9.setFiles (ainsert "n" (NewFile "n" emptyFileNode) exC9.files)).childDirs)).setFiles
         (aerase "n" (exC9.setFiles (ainsert "n" (NewFile "n" emptyFileNode) exC9.files)).files),
       Eff.none) :=
  unlink_error_still_clears_caches
    (exC9.setFiles (ainsert "n" (NewFile "n" emptyFileNode) exC9.files)) "n" rfl

/-- Empty directory used as C3's failing input. -/
def exC3 : Dir := NewDirectory "root" folderNode

/-- C3 (the code, evaluated at the failing input).  With `mode = 0` the
create bit is NOT set (`0 & O_CREATE = 0`), so per the claim `Open`
should fail with `NoSuchEntry`; but the source tests
`mode | O_CREATE != 0`, which holds for every mode, so `Open(["p"], 0)`
on an empty directory CREATES and returns a new empty-file overlay
instead of failing. -/
theorem open_ignores_missing_create_bit :
    Nat.land 0 oCREATE = 0 ∧
    Nat.lor 0 oCREATE ≠ 0 ∧
    Directory.Open exC3 ["p"] 0 =
      (.ok (NewFile "p" emptyFileNode),
       exC3.setFiles (ainsert "p" (NewFile "p" emptyFileNode) exC3.files),
       Eff.none) := by
  refine ⟨by decide, by decide, ?_⟩
  rfl

/-- File node used by the C4 failing input. -/
def fnodeC4 : DagNode := .mk (.ok ⟨.file, [3], 1, []⟩) []

/-- Directory with a single link `x` to a file node (C4's failing
input). -/
def exC4 : Dir := .mk "root" (.mk (.ok folderPB) [("x", fnodeC4)]) [] []

/-- The directory after `RenameEntry("x", "y")`. -/
def exC4r : Dir := (Directory.RenameEntry exC4 "x" "y").2.1

/-- C4 (the code, evaluated at the failing input).  After a successful
`RenameEntry("x", "y")` on a directory whose link `x` points to a file:
`Child("y")` returns the same file (same node) and the link set has
changed from `["x"]` to `["y"]` — but `Child("x")` does NOT fail with
`NoSuchEntry`: the file branch of the source deletes `oldname` from the
DIRECTORY cache instead of the file cache, so the stale file-cache entry
under `x` (installed by the rename's own `childFile` lookup) still
resolves. -/
theorem rename_stale_file_cache :
    (Directory.RenameEntry exC4 "x" "y").1 = .ok () ∧
    (Directory.Child exC4r "x").1 = .ok (.fileFS ⟨"y", fnodeC4⟩) ∧
    (Directory.Child exC4r "y").1 = .ok (.fileFS ⟨"y", fnodeC4⟩) ∧
    Directory.listNames exC4r = ["y"] ∧
    Directory.listNames exC4 = ["x"] :=
  ⟨rfl, rfl, rfl, rfl, rfl⟩

/-! ### Cache disjointness (C7)

The public operations as a step machine over one directory, and the
cache invariant.  The invariant couples key-disjointness of the two
caches with the kind of the link each cached name currently has — the
coupling is what makes it inductive. -/

/-- One public operation on a directory overlay (the arguments of the
call). -/
inductive DirOp where
  | childOp (n : String)
  | listOp
  | mkdirOp (n : String)
  | unlinkOp (n : String)
  | childDirOp (n : String)
  | childFileOp (n : String)
  | addChildOp (n : String) (nd : DagNode)
  | openOp (p : List String) (mode : Nat)
  | renameOp (o : String) (n : String)

/-- Run one operation, keeping the resulting directory state (results
and effects are discarded; Go mutates the directory in place whether or
not the call succeeds). -/
def applyOp (d : Dir) : DirOp → Dir
  | .childOp n => (Directory.Child d n).2
  | .listOp => d
  | .mkdirOp n => (Directory.Mkdir d n).2.1
  | .unlinkOp n => (Directory.Unlink d n).2.1
  | .childDirOp n => (Directory.childDir d n).2
  | .childFileOp n => (Directory.childFile d n).2
  | .addChildOp n nd => (Directory.AddChild d n nd).2.1
  | .openOp p mode => (Directory.Open d p mode).2.1
  | .renameOp o n => (Directory.RenameEntry d o n).2.1

/-- The operations that preserve cache disjointness: everything except
`Open` (whose always-true create test caches a file overlay under a
name that may be cached as a directory) and `RenameEntry` (which
deletes from the wrong cache on file renames and does not guard an
existing target name). -/
def benign : DirOp → Bool
  | .openOp _ _ => false
  | .renameOp _ _ => false
  | _ => true

/-- The decoded kind of a node, if it decodes. -/
def nodeKind (nd : DagNode) : Option UfsType :=
  match nd.nodeData with
  | .malformed => Option.none
  | .ok pb => some pb.typ

/-- The kind of the node the directory's link named `n` points to (if
the link exists and its target decodes). -/
def linkKind (d : Dir) (n : String) : Option UfsType :=
  match alookup n d.node.links with
  | Option.none => Option.none
  | some nd => nodeKind nd

/-- The cache invariant: the two caches are key-disjoint, a cached
directory's link (when present and decodable) is not `File`-typed, and
a cached file's link is not `Directory`-typed. -/
def CacheInv (d : Dir) : Prop :=
  (∀ n, (alookup n d.childDirs).isSome = true → alookup n d.files = Option.none) ∧
  (∀ n, (alookup n d.childDirs).isSome = true → ¬ linkKind d n = some .file) ∧
  (∀ n, (alookup n d.files).isSome = true → ¬ linkKind d n = some .directory)

theorem NewDirectory_inv (name : String) (node : DagNode) :
    CacheInv (NewDirectory name node) := by
  refine ⟨?_, ?_, ?_⟩ <;> intro n hn <;> simp [NewDirectory, alookup] at hn

theorem addNodeLinkClean_eq_ainsert (name : String) (nd : DagNode)
    (links : List (String × DagNode)) :
    addNodeLinkClean name nd links = ainsert name nd links := rfl

@[simp] theorem linkKind_setFiles (d : Dir) (fs : List (String × FileOv)) (n : String) :
    linkKind (d.setFiles fs) n = linkKind d n := by simp [linkKind]

@[simp] theorem linkKind_setDirs (d : Dir) (ds : List (String × Dir)) (n : String) :
    linkKind (d.setDirs ds) n = linkKind d n := by simp [linkKind]

theorem linkKind_insert_self (d : Dir) (m : String) (nd : DagNode) :
    linkKind (d.setNode (d.node.setLinks (addNodeLinkClean m nd d.node.links))) m =
      nodeKind nd := by
  simp [linkKind, addNodeLinkClean_eq_ainsert, alookup_ainsert]

theorem linkKind_insert_ne (d : Dir) {n m : String} (h : n ≠ m) (nd : DagNode) :
    linkKind (d.setNode (d.node.setLinks (addNodeLinkClean m nd d.node.links))) n =
      linkKind d n := by
  simp [linkKind, addNodeLinkClean_eq_ainsert, alookup_ainsert_ne h]

theorem linkKind_erase_self (d : Dir) (m : String) (links' : List (String × DagNode))
    (h : removeNodeLink m d.node.links = .ok links') :
    linkKind (d.setNode (d.node.setLinks links')) m = Option.none := by
  unfold removeNodeLink at h
  split at h
  · simp at h
  · injection h with h'
    subst h'
    have haer : (List.filter (fun p => !decide (p.1 = m)) d.node.links) =
        aerase m d.node.links := by simp [aerase]
    simp [linkKind, haer, alookup_aerase_self]

theorem linkKind_erase_ne (d : Dir) {n m : String} (hne : n ≠ m)
    (links' : List (String × DagNode))
    (h : removeNodeLink m d.node.links = .ok links') :
    linkKind (d.setNode (d.node.setLinks links')) n = linkKind d n := by
  unfold removeNodeLink at h
  split at h
  · simp at h
  · injection h with h'
    subst h'
    have haer : (List.filter (fun p => !decide (p.1 = m)) d.node.links) =
        aerase m d.node.links := by simp [aerase]
    simp [linkKind, haer, alookup_aerase_ne hne]

theorem childFile_error_facts {d : Dir} {n : String} {e : DErr} {d2 : Dir}
    (h : Directory.childFile d n = (.error e, d2)) :
    d2 = d ∧ alookup n d.files = Option.none := by
  unfold Directory.childFile at h
  split at h
  · injection h with h1 h2
    simp at h1
  next hfe =>
    split at h
    next nd hle =>
      split at h
      · exact ⟨(congrArg Prod.snd h).symm, hfe⟩
      next pb hnd =>
        split at h
        · exact ⟨(congrArg Prod.snd h).symm, hfe⟩
        · injection h with h1 h2
          simp at h1
        · exact ⟨(congrArg Prod.snd h).symm, hfe⟩
        · exact ⟨(congrArg Prod.snd h).symm, hfe⟩
        · exact ⟨(congrArg Prod.snd h).symm, hfe⟩
    next hle => exact ⟨(congrArg Prod.snd h).symm, hfe⟩

theorem childDir_error_facts {d : Dir} {n : String} {e : DErr} {d2 : Dir}
    (h : Directory.childDir d n = (.error e, d2)) :
    d2 = d ∧ alookup n d.childDirs = Option.none := by
  unfold Directory.childDir at h
  split at h
  · injection h with h1 h2
    simp at h1
  next hde =>
    split at h
    next nd hle =>
      split at h
      · exact ⟨(congrArg Prod.snd h).symm, hde⟩
      next pb hnd =>
        split at h
        · injection h with h1 h2
          simp at h1
        · exact ⟨(congrArg Prod.snd h).symm, hde⟩
        · exact ⟨(congrArg Prod.snd h).symm, hde⟩
        · exact ⟨(congrArg Prod.snd h).symm, hde⟩
        · exact ⟨(congrArg Prod.snd h).symm, hde⟩
    next hle => exact ⟨(congrArg Prod.snd h).symm, hde⟩

theorem childFile_inv (d : Dir) (n : String) (h : CacheInv d) :
    CacheInv (Directory.childFile d n).2 := by
  obtain ⟨h1, h2, h3⟩ := h
  unfold Directory.childFile
  split
  · exact ⟨h1, h2, h3⟩
  next hfe =>
    split
    next nd hle =>
      split
      · exact ⟨h1, h2, h3⟩
      next pb hnd =>
        split
        · exact ⟨h1, h2, h3⟩
        next htyp =>
          -- the caching arm: pb.typ = .file
          have hk : linkKind d n = some .file := by
            simp [linkKind, hle, nodeKind, hnd, htyp]
          refine ⟨?_, ?_, ?_⟩
          · intro m hm
            simp only [Dir.childDirs_setFiles] at hm
            by_cases hmn : m = n
            · exact absurd hk (h2 n (hmn ▸ hm))
            · simp only [Dir.files_setFiles]
              rw [alookup_ainsert_ne hmn]
              exact h1 m hm
          · intro m hm
            simp only [Dir.childDirs_setFiles] at hm
            rw [linkKind_setFiles]
            exact h2 m hm
          · intro m hm
            simp only [Dir.files_setFiles] at hm
            rw [linkKind_setFiles]
            by_cases hmn : m = n
            · subst hmn
              rw [hk]
              simp
            · rw [alookup_ainsert_ne hmn] at hm
              exact h3 m hm
        · exact ⟨h1, h2, h3⟩
        · exact ⟨h1, h2, h3⟩
        · exact ⟨h1, h2, h3⟩
    next hle => exact ⟨h1, h2, h3⟩

theorem childDir_inv (d : Dir) (n : String) (h : CacheInv d) :
    CacheInv (Directory.childDir d n).2 := by
  obtain ⟨h1, h2, h3⟩ := h
  unfold Directory.childDir
  split
  · exact ⟨h1, h2, h3⟩
  next hde =>
    split
    next nd hle =>
      split
      · exact ⟨h1, h2, h3⟩
      next pb hnd =>
        split
        next htyp =>
          -- the caching arm: pb.typ = .directory
          have hk : linkKind d n = some .directory := by
            simp [linkKind, hle, nodeKind, hnd, htyp]
          refine ⟨?_, ?_, ?_⟩
          · intro m hm
            simp only [Dir.childDirs_setDirs] at hm
            simp only [Dir.files_setDirs]
            by_cases hmn : m = n
            · subst hmn
              by_cases hsome : (alookup m d.files).isSome = true
              · exact absurd hk (h3 m hsome)
              · rcases hcase : alookup m d.files with _ | v
                · rfl
                · rw [hcase] at hsome
                  simp at hsome
            · rw [alookup_ainsert_ne hmn] at hm
              exact h1 m hm
          · intro m hm
            simp only [Dir.childDirs_setDirs] at hm
            rw [linkKind_setDirs]
            by_cases hmn : m = n
            · subst hmn
              rw [hk]
              simp
            · rw [alookup_ainsert_ne hmn] at hm
              exact h2 m hm
          · intro m hm
            simp only [Dir.files_setDirs] at hm
            rw [linkKind_setDirs]
            exact h3 m hm
        · exact ⟨h1, h2, h3⟩
        · exact ⟨h1, h2, h3⟩
        · exact ⟨h1, h2, h3⟩
        · exact ⟨h1, h2, h3⟩
    next hle => exact ⟨h1, h2, h3⟩

theorem Child_error_facts {d : Dir} {n : String} {e : DErr} {d1 : Dir}
    (h : Directory.Child d n = (.error e, d1))
    (hnp : ∀ m, e ≠ .panicked m) :
    d1 = d ∧ alookup n d.childDirs = Option.none ∧
      alookup n d.files = Option.none := by
  unfold Directory.Child at h
  split at h
  · injection h with h1 h2
    simp at h1
  next m d1' heq =>
    injection h with h1 h2
    injection h1 with h1'
    exact absurd h1'.symm (hnp m)
  next x res d1' hne heq =>
    obtain ⟨hd1', hdirs⟩ := childDir_error_facts heq
    split at h
    next fi d2 heq2 =>
      injection h with h1 h2
      simp at h1
    next m d2 heq2 =>
      injection h with h1 h2
      injection h1 with h1'
      exact absurd h1'.symm (hnp m)
    next y res2 d2 hne2 heq2 =>
      obtain ⟨hd2, hfiles⟩ := childFile_error_facts heq2
      injection h with h1 h2
      refine ⟨?_, hdirs, ?_⟩
      · rw [← h2, hd2, hd1']
      · rw [← hd1']
        exact hfiles

theorem Child_inv (d : Dir) (n : String) (h : CacheInv d) :
    CacheInv (Directory.Child d n).2 := by
  unfold Directory.Child
  split
  next dir d1 heq =>
    have h1 := childDir_inv d n h
    rw [heq] at h1
    exact h1
  next m d1 heq =>
    have h1 := childDir_inv d n h
    rw [heq] at h1
    exact h1
  next x res d1 hne heq =>
    have h1 := childDir_inv d n h
    rw [heq] at h1
    have h2 := childFile_inv d1 n h1
    split
    next fi d2 heq2 => rw [heq2] at h2; exact h2
    next m d2 heq2 => rw [heq2] at h2; exact h2
    next y res2 d2 hne2 heq2 => rw [heq2] at h2; exact h2

theorem Unlink_inv (d : Dir) (n : String) (h : CacheInv d) :
    CacheInv (Directory.Unlink d n).2.1 := by
  obtain ⟨h1, h2, h3⟩ := h
  have hinv1 : CacheInv ((d.setDirs (aerase n d.childDirs)).setFiles (aerase n d.files)) := by
    refine ⟨?_, ?_, ?_⟩
    · intro m hm
      simp only [Dir.childDirs_setFiles, Dir.childDirs_setDirs] at hm
      simp only [Dir.files_setFiles]
      by_cases hmn : m = n
      · subst hmn
        rw [alookup_aerase_self] at hm
        simp at hm
      · rw [alookup_aerase_ne hmn] at hm
        rw [alookup_aerase_ne hmn]
        exact h1 m hm
    · intro m hm
      simp only [Dir.childDirs_setFiles, Dir.childDirs_setDirs] at hm
      rw [linkKind_setFiles, linkKind_setDirs]
      by_cases hmn : m = n
      · subst hmn
        rw [alookup_aerase_self] at hm
        simp at hm
      · rw [alookup_aerase_ne hmn] at hm
        exact h2 m hm
    · intro m hm
      simp only [Dir.files_setFiles] at hm
      rw [linkKind_setFiles, linkKind_setDirs]
      by_cases hmn : m = n
      · subst hmn
        rw [alookup_aerase_self] at hm
        simp at hm
      · rw [alookup_aerase_ne hmn] at hm
        exact h3 m hm
  unfold Directory.Unlink
  simp only []
  split
  next e heq => exact hinv1
  next links' heq =>
    obtain ⟨g1, g2, g3⟩ := hinv1
    refine ⟨?_, ?_, ?_⟩
    · intro m hm
      simp only [Dir.childDirs_setNode] at hm
      simp only [Dir.files_setNode]
      exact g1 m hm
    · intro m hm
      simp only [Dir.childDirs_setNode] at hm
      by_cases hmn : m = n
      · subst hmn
        simp only [Dir.childDirs_setFiles, Dir.childDirs_setDirs] at hm
        rw [alookup_aerase_self] at hm
        simp at hm
      · rw [linkKind_erase_ne _ hmn links' heq]
        exact g2 m hm
    · intro m hm
      simp only [Dir.files_setNode] at hm
      by_cases hmn : m = n
      · subst hmn
        simp only [Dir.files_setFiles] at hm
        rw [alookup_aerase_self] at hm
        simp at hm
      · rw [linkKind_erase_ne _ hmn links' heq]
        exact g3 m hm

theorem Mkdir_inv (d : Dir) (n : String) (h : CacheInv d) :
    CacheInv (Directory.Mkdir d n).2.1 := by
  unfold Directory.Mkdir
  simp only []
  split
  next dir d1 heq =>
    have h1 := childDir_inv d n h
    rw [heq] at h1
    exact h1
  next m d1 heq =>
    have h1 := childDir_inv d n h
    rw [heq] at h1
    exact h1
  next x res d1 hne heq =>
    have h1 := childDir_inv d n h
    rw [heq] at h1
    split
    next fi d2 heq2 =>
      have h2 := childFile_inv d1 n h1
      rw [heq2] at h2
      exact h2
    next m d2 heq2 =>
      have h2 := childFile_inv d1 n h1
      rw [heq2] at h2
      exact h2
    next y res2 d2 hne2 heq2 =>
      have h2 := childFile_inv d1 n h1
      rw [heq2] at h2
      simp only at h2
      obtain ⟨hd2d1, hfilesmiss⟩ := childFile_error_facts heq2
      obtain ⟨h21, h22, h23⟩ := h2
      have hinv3 : CacheInv (d2.setNode (d2.node.setLinks
          (addNodeLinkClean n folderNode d2.node.links))) := by
        refine ⟨?_, ?_, ?_⟩
        · intro m hm
          simp only [Dir.childDirs_setNode] at hm
          simp only [Dir.files_setNode]
          exact h21 m hm
        · intro m hm
          simp only [Dir.childDirs_setNode] at hm
          by_cases hmn : m = n
          · subst hmn
            rw [linkKind_insert_self]
            simp [nodeKind, folderNode, folderPB]
          · rw [linkKind_insert_ne _ hmn]
            exact h22 m hm
        · intro m hm
          simp only [Dir.files_setNode] at hm
          by_cases hmn : m = n
          · subst hmn
            rw [hd2d1, hfilesmiss] at hm
            simp at hm
          · rw [linkKind_insert_ne _ hmn]
            exact h23 m hm
      split
      next dir d4 heq3 =>
        have h4 := childDir_inv _ n hinv3
        rw [heq3] at h4
        exact h4
      next e2 d4 heq3 =>
        have h4 := childDir_inv _ n hinv3
        rw [heq3] at h4
        exact h4

theorem AddChild_inv (d : Dir) (n : String) (nd : DagNode) (h : CacheInv d) :
    CacheInv (Directory.AddChild d n nd).2.1 := by
  unfold Directory.AddChild
  simp only []
  split
  · exact h
  next pbn hnd =>
    split
    next x d1 heq =>
      have h1 := Child_inv d n h
      rw [heq] at h1
      exact h1
    next m d1 heq =>
      have h1 := Child_inv d n h
      rw [heq] at h1
      exact h1
    next x res d1 hne heq =>
      have h1 := Child_inv d n h
      rw [heq] at h1
      simp only at h1
      obtain ⟨h11, h12, h13⟩ := h1
      obtain ⟨hd1, hdirs, hfiles⟩ := Child_error_facts heq (fun m hm => hne m hm)
      split
      next htyp =>
        simp only []
        -- directory kind
        refine ⟨?_, ?_, ?_⟩
        · intro m hm
          simp only [Dir.childDirs_setDirs, Dir.childDirs_setNode] at hm
          simp only [Dir.files_setDirs, Dir.files_setNode]
          by_cases hmn : m = n
          · subst hmn
            rw [hd1]
            exact hfiles
          · rw [alookup_ainsert_ne hmn] at hm
            exact h11 m hm
        · intro m hm
          simp only [Dir.childDirs_setDirs, Dir.childDirs_setNode] at hm
          by_cases hmn : m = n
          · subst hmn
            try simp only [linkKind_setDirs, linkKind_setFiles]
            rw [linkKind_insert_self]
            simp [nodeKind, hnd, htyp]
          · try rw [alookup_ainsert_ne hmn] at hm
            try simp only [linkKind_setDirs, linkKind_setFiles]
            rw [linkKind_insert_ne _ hmn]
            exact h12 m hm
        · intro m hm
          simp only [Dir.files_setDirs, Dir.files_setNode] at hm
          by_cases hmn : m = n
          · subst hmn
            rw [hd1, hfiles] at hm
            simp at hm
          · try rw [alookup_ainsert_ne hmn] at hm
            try simp only [linkKind_setDirs, linkKind_setFiles]
            rw [linkKind_insert_ne _ hmn]
            exact h13 m hm
      next htyp =>
        simp only []
        -- file kind
        refine ⟨?_, ?_, ?_⟩
        · intro m hm
          simp only [Dir.childDirs_setFiles, Dir.childDirs_setNode] at hm
          simp only [Dir.files_setFiles, Dir.files_setNode]
          by_cases hmn : m = n
          · subst hmn
            rw [hd1, hdirs] at hm
            simp at hm
          · rw [alookup_ainsert_ne hmn]
            exact h11 m hm
        · intro m hm
          simp only [Dir.childDirs_setFiles, Dir.childDirs_setNode] at hm
          by_cases hmn : m = n
          · subst hmn
            rw [hd1, hdirs] at hm
            simp at hm
          · try rw [alookup_ainsert_ne hmn] at hm
            try simp only [linkKind_setDirs, linkKind_setFiles]
            rw [linkKind_insert_ne _ hmn]
            exact h12 m hm
        · intro m hm
          simp only [Dir.files_setFiles, Dir.files_setNode] at hm
          by_cases hmn : m = n
          · subst hmn
            try simp only [linkKind_setDirs, linkKind_setFiles]
            rw [linkKind_insert_self]
            simp [nodeKind, hnd, htyp]
          · rw [alookup_ainsert_ne hmn] at hm
            try simp only [linkKind_setDirs, linkKind_setFiles]
            rw [linkKind_insert_ne _ hmn]
            exact h13 m hm
      next htyp =>
        simp only []
        -- metadata kind
        refine ⟨?_, ?_, ?_⟩
        · intro m hm
          simp only [Dir.childDirs_setFiles, Dir.childDirs_setNode] at hm
          simp only [Dir.files_setFiles, Dir.files_setNode]
          by_cases hmn : m = n
          · subst hmn
            rw [hd1, hdirs] at hm
            simp at hm
          · rw [alookup_ainsert_ne hmn]
            exact h11 m hm
        · intro m hm
          simp only [Dir.childDirs_setFiles, Dir.childDirs_setNode] at hm
          by_cases hmn : m = n
          · subst hmn
            rw [hd1, hdirs] at hm
            simp at hm
          · try rw [alookup_ainsert_ne hmn] at hm
            try simp only [linkKind_setDirs, linkKind_setFiles]
            rw [linkKind_insert_ne _ hmn]
            exact h12 m hm
        · intro m hm
          simp only [Dir.files_setFiles, Dir.files_setNode] at hm
          by_cases hmn : m = n
          · subst hmn
            try simp only [linkKind_setDirs, linkKind_setFiles]
            rw [linkKind_insert_self]
            simp [nodeKind, hnd, htyp]
          · rw [alookup_ainsert_ne hmn] at hm
            try simp only [linkKind_setDirs, linkKind_setFiles]
            rw [linkKind_insert_ne _ hmn]
            exact h13 m hm
      next htyp =>
        simp only []
        -- raw kind
        refine ⟨?_, ?_, ?_⟩
        · intro m hm
          simp only [Dir.childDirs_setFiles, Dir.childDirs_setNode] at hm
          simp only [Dir.files_setFiles, Dir.files_setNode]
          by_cases hmn : m = n
          · subst hmn
            rw [hd1, hdirs] at hm
            simp at hm
          · rw [alookup_ainsert_ne hmn]
            exact h11 m hm
        · intro m hm
          simp only [Dir.childDirs_setFiles, Dir.childDirs_setNode] at hm
          by_cases hmn : m = n
          · subst hmn
            rw [hd1, hdirs] at hm
            simp at hm
          · try rw [alookup_ainsert_ne hmn] at hm
            try simp only [linkKind_setDirs, linkKind_setFiles]
            rw [linkKind_insert_ne _ hmn]
            exact h12 m hm
        · intro m hm
          simp only [Dir.files_setFiles, Dir.files_setNode] at hm
          by_cases hmn : m = n
          · subst hmn
            try simp only [linkKind_setDirs, linkKind_setFiles]
            rw [linkKind_insert_self]
            simp [nodeKind, hnd, htyp]
          · rw [alookup_ainsert_ne hmn] at hm
            try simp only [linkKind_setDirs, linkKind_setFiles]
            rw [linkKind_insert_ne _ hmn]
            exact h13 m hm
      next htyp =>
        simp only []
        -- unknown kind: panic, with the link already installed
        refine ⟨?_, ?_, ?_⟩
        · intro m hm
          simp only [Dir.childDirs_setNode] at hm
          simp only [Dir.files_setNode]
          exact h11 m hm
        · intro m hm
          simp only [Dir.childDirs_setNode] at hm
          by_cases hmn : m = n
          · subst hmn
            rw [hd1, hdirs] at hm
            simp at hm
          · try rw [alookup_ainsert_ne hmn] at hm
            try simp only [linkKind_setDirs, linkKind_setFiles]
            rw [linkKind_insert_ne _ hmn]
            exact h12 m hm
        · intro m hm
          simp only [Dir.files_setNode] at hm
          by_cases hmn : m = n
          · subst hmn
            rw [hd1, hfiles] at hm
            simp at hm
          · try rw [alookup_ainsert_ne hmn] at hm
            try simp only [linkKind_setDirs, linkKind_setFiles]
            rw [linkKind_insert_ne _ hmn]
            exact h13 m hm

theorem applyOp_inv (d : Dir) (op : DirOp) (hb : benign op = true)
    (h : CacheInv d) : CacheInv (applyOp d op) := by
  cases op with
  | childOp n => exact Child_inv d n h
  | listOp => exact h
  | mkdirOp n => exact Mkdir_inv d n h
  | unlinkOp n => exact Unlink_inv d n h
  | childDirOp n => exact childDir_inv d n h
  | childFileOp n => exact childFile_inv d n h
  | addChildOp n nd => exact AddChild_inv d n nd h
  | openOp p mode => simp [benign] at hb
  | renameOp o n => simp [benign] at hb

theorem CacheInv_foldl (ops : List DirOp) (d : Dir)
    (hops : ∀ op ∈ ops, benign op = true) (h : CacheInv d) :
    CacheInv (ops.foldl applyOp d) := by
  induction ops generalizing d with
  | nil => simpa using h
  | cons op rest ih =>
    simp only [List.foldl_cons]
    exact ih (applyOp d op) (fun o ho => hops o (by simp [ho]))
      (applyOp_inv d op (hops op (by simp)) h)

/-- C7 (amended).  Starting from a freshly created directory overlay,
after any sequence of the public operations EXCLUDING `Open` and
`RenameEntry` — i.e. `Child`, `List`, `Mkdir`, `Unlink`, `AddChild` and
`childDir`/`childFile` materialization — no name is simultaneously a
key of the directory cache and of the file cache.  (`Open`'s
always-taken create path and `RenameEntry` can break disjointness: see
the counterexample.) -/
theorem cache_disjointness (name : String) (node : DagNode) (ops : List DirOp)
    (hops : ∀ op ∈ ops, benign op = true) (n : String) :
    ¬((alookup n (ops.foldl applyOp (NewDirectory name node)).childDirs).isSome = true ∧
      (alookup n (ops.foldl applyOp (NewDirectory name node)).files).isSome = true) := by
  rintro ⟨hdir, hfile⟩
  have hinv := CacheInv_foldl ops (NewDirectory name node) hops
    (NewDirectory_inv name node)
  rw [hinv.1 n hdir] at hfile
  simp at hfile

/-- Directory node with one sub-directory link `x`, used by the C7
theorems. -/
def exC7node : DagNode := .mk (.ok folderPB) [("x", folderNode)]

/-- Witness for C7 (amended): materialize the sub-directory `x`, then
`Mkdir "y"`; the caches remain key-disjoint at `x`. -/
theorem cache_disjointness_witness :
    ¬((alookup "x" ([DirOp.childOp "x", DirOp.mkdirOp "y"].foldl applyOp
        (NewDirectory "root" exC7node)).childDirs).isSome = true ∧
      (alookup "x" ([DirOp.childOp "x", DirOp.mkdirOp "y"].foldl applyOp
        (NewDirectory "root" exC7node)).files).isSome = true) :=
  cache_disjointness "root" exC7node [DirOp.childOp "x", DirOp.mkdirOp "y"]
    (by decide) "x"

/-- C7 counterexample.  With the full public operation set the claim
fails: `Child "x"` materializes the sub-directory `x` into the
directory cache, then `Open ["x"] 0` — whose create test
`mode|O_CREATE != 0` always holds and whose create path runs on ANY
`childFile` failure, here `ErrIsDirectory` — caches a file overlay
under the same name `x`: afterwards `x` is a key of BOTH caches. -/
theorem cache_disjoint_counterexample :
    (alookup "x" ([DirOp.childOp "x", DirOp.openOp ["x"] 0].foldl applyOp
        (NewDirectory "root" exC7node)).childDirs).isSome = true ∧
    (alookup "x" ([DirOp.childOp "x", DirOp.openOp ["x"] 0].foldl applyOp
        (NewDirectory "root" exC7node)).files).isSome = true :=
  ⟨rfl, rfl⟩

end GoIpfs
